import Mathlib

/-!
Verification development for the bulk-import reconciliation pipeline of a
double-entry accounting engine (`lukweb`).  The definitions below are a
shallow embedding of the Python source:

* `make_payment_splits`, `phase1`, `phase2`, `findExact`
  — `lukweb/forms/accounting/bulk_utils.py`, lines 473-595;
* `validate_global`, `dupcheck_buckets`, `import_buckets`
  — `DuplicationProtectedPreparator.validate_global` (bulk_utils.py 405-452)
    and `DuplicationProtectedQuerySet.dupcheck_buckets` (models/accounting/base.py 337-356);
* `matched_balance`, `unmatched_balance`, `fully_matched`, `balance`, `paid`
  — `DoubleBookModel` / `BaseDebtRecord` (models/accounting/base.py 160-203, 383-400);
* `opt_mem`, `opts_match` — `ActivityOption.__contains__` and
  `PricingRule.opts_match` (models/accounting/complex_pricing.py 87-90, 378-393);
* `model_kwargs_for_transaction` — `DebtTransferPaymentPreparator`
  (forms/accounting/transfers.py 84-153) together with its superclasses.

Monetary amounts are represented in cents.  Ledger amounts handled by the
apportionment engine are `Nat` (the model's `MoneyField` validators force
strictly positive totals, and annotated `credit_remaining` / `balance`
values of well-formed rows lie between 0 and the total), while the
double-book balance model uses `Int` so that inconsistent database states
(e.g. over-matched records) remain expressible.  Timestamps are `Int`;
only their ordering is ever used by the code under study.
-/

/-- A payment row as consumed by `make_payment_splits`: the engine reads
`credit_remaining`, `total_amount` and `timestamp` of each payment
(`BasePaymentRecord`, models/accounting/base.py 403-420). -/
structure PaymentR where
  total_amount : Nat
  credit_remaining : Nat
  timestamp : Int
deriving DecidableEq, Repr

/-- A debt row as consumed by `make_payment_splits`: the engine reads
`balance`, `total_amount` and `timestamp` (`BaseDebtRecord`,
models/accounting/base.py 383-400). -/
structure DebtR where
  total_amount : Nat
  balance : Nat
  timestamp : Int
deriving DecidableEq, Repr

/-- A split yielded by the engine: `split_model(payment_fk: payment,
debt_fk: debt, amount: amt)` (bulk_utils.py 520-523 and 591-593). -/
structure Split where
  payment : PaymentR
  debt : DebtR
  amount : Nat
deriving DecidableEq, Repr

/-- The `ApportionmentResult` namedtuple (bulk_utils.py 462-469). -/
structure ApportionmentResult where
  fully_used_payments : List PaymentR
  fully_paid_debts : List DebtR
  remaining_payments : List PaymentR
  remaining_debts : List DebtR
deriving DecidableEq, Repr

/-- The debt predicate of the exact-match phase:
`d.balance == amt and d.timestamp <= payment.timestamp` where
`amt = payment.credit_remaining` (bulk_utils.py 508-513). -/
def exactMatchPred (p : PaymentR) (d : DebtR) : Bool :=
  d.balance == p.credit_remaining && decide (d.timestamp ≤ p.timestamp)

/-- The `next(...)`/`del debt_list[index]` pair of phase 1
(bulk_utils.py 510-517): the first debt satisfying `exactMatchPred`
together with the candidate list with that debt removed. -/
def findExact (p : PaymentR) : List DebtR → Option (DebtR × List DebtR)
  | [] => none
  | d :: ds =>
    if exactMatchPred p d then some (d, ds)
    else (findExact p ds).map (fun r => (r.1, d :: r.2))

/-- Output of the exact-match phase (bulk_utils.py 502-530): splits yielded,
payments marked fully used, debts marked fully paid, the deferred
`payments_todo`, and the surviving `debt_list`. -/
structure P1Out where
  splits : List Split
  fully_used : List PaymentR
  fully_paid : List DebtR
  payments_todo : List PaymentR
  debts_left : List DebtR
deriving DecidableEq, Repr

/-- Phase 1 of `make_payment_splits` (bulk_utils.py 502-530): scan payments
in order; pair each with the first exact-amount debt not younger than it,
if any, else defer the payment to `payments_todo`. -/
def phase1 : List PaymentR → List DebtR → P1Out
  | [], ds => ⟨[], [], [], [], ds⟩
  | p :: ps, ds =>
    match findExact p ds with
    | some (d, ds') =>
      let r := phase1 ps ds'
      ⟨⟨p, d, p.credit_remaining⟩ :: r.splits, p :: r.fully_used,
        d :: r.fully_paid, r.payments_todo, r.debts_left⟩
    | none =>
      let r := phase1 ps ds
      ⟨r.splits, r.fully_used, r.fully_paid, p :: r.payments_todo, r.debts_left⟩

/-- Credit remaining on the current payment; `0` when no payment is in hand
(the `payment = None; credit_remaining = 0` initialisation,
bulk_utils.py 543-552). -/
def creditOf : Option (PaymentR × Nat) → Nat
  | none => 0
  | some pc => pc.2

/-- Remaining portion of the current debt; `0` when no debt is in hand. -/
def debtRemOf : Option (DebtR × Nat) → Nat
  | none => 0
  | some dc => dc.2

/-- `if credit_remaining: results.remaining_payments.append(payment)`
(bulk_utils.py 564-565), executed when the debts iterator is exhausted. -/
def remPay : Option (PaymentR × Nat) → List PaymentR
  | none => []
  | some (p, c) => if c = 0 then [] else [p]

/-- Phase 2 of `make_payment_splits`: the `while True` loop of
bulk_utils.py 553-595.  The state is the current payment with its
`credit_remaining` (`none` encodes `payment = None, credit_remaining = 0`),
the current debt with its `debt_remaining`, and the two iterators.
Each recursive call performs one primitive action of the loop:
advance a debt, advance a payment, or yield a split. -/
def phase2 : Option (PaymentR × Nat) → Option (DebtR × Nat) →
    List PaymentR → List DebtR → List Split × ApportionmentResult
  | pc, none, _, [] =>
    -- initial `debt_remaining = 0`, no debt in hand, debts exhausted:
    -- StopIteration at line 560; record leftover credit (lines 562-566)
    ([], ⟨[], [], remPay pc, []⟩)
  | pc, none, ps, d :: ds =>
    -- initial `debt_remaining = 0`, no debt in hand: fetch the first debt
    phase2 pc (some (d, d.balance)) ps ds
  | pc, some (d, rem), ps, ds =>
    if _hrem : rem = 0 then
      -- `while not debt_remaining:` — report the debt as fully paid
      -- (lines 556-561) and fetch the next one
      match ds with
      | d' :: ds' =>
        let r := phase2 pc (some (d', d'.balance)) ps ds'
        (r.1, { r.2 with fully_paid_debts := d :: r.2.fully_paid_debts })
      | [] =>
        -- `next(debts_iter)` raised after `fully_paid_debts.append(debt)`
        ([], ⟨[], [d], remPay pc, []⟩)
    else
      match pc with
      | none =>
        -- `not credit_remaining` holds (initial state): fetch a payment
        -- (lines 571-579); `payment is None`, so nothing is reported
        match ps with
        | p :: ps' => phase2 (some (p, p.credit_remaining)) (some (d, rem)) ps' ds
        | [] =>
          -- StopIteration on payments: record the unpaid debt (583-584)
          ([], ⟨[], [], [], [d]⟩)
      | some (p, c) =>
        if _hpay : c = 0 ∨ p.timestamp < d.timestamp then
          -- `while not credit_remaining or payment.timestamp < debt.timestamp`
          -- — report on the payment in hand, then fetch the next one
          match ps with
          | p' :: ps' =>
            let r := phase2 (some (p', p'.credit_remaining)) (some (d, rem)) ps' ds
            if c = 0 then
              (r.1, { r.2 with fully_used_payments := p :: r.2.fully_used_payments })
            else
              (r.1, { r.2 with remaining_payments := p :: r.2.remaining_payments })
          | [] =>
            -- StopIteration on payments after the report at lines 573-577
            if c = 0 then ([], ⟨[p], [], [], [d]⟩)
            else ([], ⟨[], [], [p], [d]⟩)
        else
          -- `amt = min(debt_remaining, credit_remaining)` and yield the
          -- split (lines 586-593)
          let amt := min rem c
          let r := phase2 (some (p, c - amt)) (some (d, rem - amt)) ps ds
          (⟨p, d, amt⟩ :: r.1, r.2)
termination_by pc dc ps ds => (ps.length + ds.length, creditOf pc + debtRemOf dc)
decreasing_by
  all_goals first
  | (apply Prod.Lex.left; simp only [List.length_cons]; omega)
  | (apply Prod.Lex.right; simp only [creditOf, debtRemOf]; omega)

/-- The full apportionment engine `make_payment_splits`
(bulk_utils.py 473-595) on one party's payments and debts, returning the
stream of yielded splits together with the `ApportionmentResult` that the
generator returns.  Lists produced by phase 1 are extended by phase 2,
exactly as the mutable `results` lists are in the source. -/
def make_payment_splits (payments : List PaymentR) (debts : List DebtR)
    (prioritise_exact_amount_match : Bool) (exact_amount_match_only : Bool) :
    List Split × ApportionmentResult :=
  if prioritise_exact_amount_match || exact_amount_match_only then
    let p1 := phase1 payments debts
    if exact_amount_match_only then
      -- `results.remaining_debts.extend(debts_iter)` etc. (lines 536-539)
      (p1.splits, ⟨p1.fully_used, p1.fully_paid, p1.payments_todo, p1.debts_left⟩)
    else
      let r := phase2 none none p1.payments_todo p1.debts_left
      (p1.splits ++ r.1,
        ⟨p1.fully_used ++ r.2.fully_used_payments,
          p1.fully_paid ++ r.2.fully_paid_debts,
          r.2.remaining_payments, r.2.remaining_debts⟩)
  else
    phase2 none none payments debts

/-! ### Unfolding lemmas for `phase2`

One lemma per reachable branch of the loop body; they let later proofs
step the loop without re-eliminating the `if`/`match` structure. -/

theorem phase2_debt_adv (pc : Option (PaymentR × Nat)) (d : DebtR)
    (ps : List PaymentR) (d' : DebtR) (ds' : List DebtR) :
    phase2 pc (some (d, 0)) ps (d' :: ds') =
      ((phase2 pc (some (d', d'.balance)) ps ds').1,
        { (phase2 pc (some (d', d'.balance)) ps ds').2 with
            fully_paid_debts :=
              d :: (phase2 pc (some (d', d'.balance)) ps ds').2.fully_paid_debts }) := by
  rw [phase2.eq_def]; simp

theorem phase2_debt_exhausted (pc : Option (PaymentR × Nat)) (d : DebtR)
    (ps : List PaymentR) :
    phase2 pc (some (d, 0)) ps [] = ([], ⟨[], [d], remPay pc, []⟩) := by
  rw [phase2.eq_def]; simp

theorem phase2_pay_adv_none (d : DebtR) (rem : Nat) (ds : List DebtR)
    (p : PaymentR) (ps' : List PaymentR) (h : rem ≠ 0) :
    phase2 none (some (d, rem)) (p :: ps') ds =
      phase2 (some (p, p.credit_remaining)) (some (d, rem)) ps' ds := by
  rw [phase2.eq_def]; simp [h]

theorem phase2_pay_exhausted_none (d : DebtR) (rem : Nat) (ds : List DebtR)
    (h : rem ≠ 0) :
    phase2 none (some (d, rem)) [] ds = ([], ⟨[], [], [], [d]⟩) := by
  rw [phase2.eq_def]; simp [h]

theorem phase2_pay_adv_zero (d : DebtR) (rem : Nat) (ds : List DebtR)
    (p p' : PaymentR) (ps' : List PaymentR) (h : rem ≠ 0) :
    phase2 (some (p, 0)) (some (d, rem)) (p' :: ps') ds =
      ((phase2 (some (p', p'.credit_remaining)) (some (d, rem)) ps' ds).1,
        { (phase2 (some (p', p'.credit_remaining)) (some (d, rem)) ps' ds).2 with
            fully_used_payments :=
              p :: (phase2 (some (p', p'.credit_remaining)) (some (d, rem)) ps' ds).2.fully_used_payments }) := by
  rw [phase2.eq_def]; simp [h]

theorem phase2_pay_adv_pos (d : DebtR) (rem : Nat) (ds : List DebtR)
    (p : PaymentR) (c : Nat) (p' : PaymentR) (ps' : List PaymentR)
    (h : rem ≠ 0) (hc : c ≠ 0) (hts : p.timestamp < d.timestamp) :
    phase2 (some (p, c)) (some (d, rem)) (p' :: ps') ds =
      ((phase2 (some (p', p'.credit_remaining)) (some (d, rem)) ps' ds).1,
        { (phase2 (some (p', p'.credit_remaining)) (some (d, rem)) ps' ds).2 with
            remaining_payments :=
              p :: (phase2 (some (p', p'.credit_remaining)) (some (d, rem)) ps' ds).2.remaining_payments }) := by
  rw [phase2.eq_def]; simp [h, hc, hts]

theorem phase2_pay_exhausted_zero (d : DebtR) (rem : Nat) (ds : List DebtR)
    (p : PaymentR) (h : rem ≠ 0) :
    phase2 (some (p, 0)) (some (d, rem)) [] ds = ([], ⟨[p], [], [], [d]⟩) := by
  rw [phase2.eq_def]; simp [h]

theorem phase2_pay_exhausted_pos (d : DebtR) (rem : Nat) (ds : List DebtR)
    (p : PaymentR) (c : Nat) (h : rem ≠ 0) (hc : c ≠ 0)
    (hts : p.timestamp < d.timestamp) :
    phase2 (some (p, c)) (some (d, rem)) [] ds = ([], ⟨[], [], [p], [d]⟩) := by
  rw [phase2.eq_def]; simp [h, hc, hts]

theorem phase2_split (d : DebtR) (rem : Nat) (ps : List PaymentR)
    (ds : List DebtR) (p : PaymentR) (c : Nat)
    (h : rem ≠ 0) (hc : c ≠ 0) (hts : ¬p.timestamp < d.timestamp) :
    phase2 (some (p, c)) (some (d, rem)) ps ds =
      (⟨p, d, min rem c⟩ ::
          (phase2 (some (p, c - min rem c)) (some (d, rem - min rem c)) ps ds).1,
        (phase2 (some (p, c - min rem c)) (some (d, rem - min rem c)) ps ds).2) := by
  rw [phase2.eq_def]; simp [h, hc, hts]

/-! ### Loop invariants of `phase2` -/

/-- Sum of the amounts of a list of splits (`sum(s.amount for s in splits)`,
as the wrapping preparator computes it, bulk_utils.py 640-643). -/
def splitsAmount (l : List Split) : Nat := (l.map (fun s => s.amount)).sum

/-- Sum of the `credit_remaining` of a list of payments. -/
def creditsSum (l : List PaymentR) : Nat := (l.map (fun p => p.credit_remaining)).sum

/-- Sum of the `balance` of a list of debts. -/
def balancesSum (l : List DebtR) : Nat := (l.map (fun d => d.balance)).sum

/-- Sum of the `total_amount` of a list of payments. -/
def totalsSumP (l : List PaymentR) : Nat := (l.map (fun p => p.total_amount)).sum

/-- Sum of the `total_amount` of a list of debts. -/
def totalsSumD (l : List DebtR) : Nat := (l.map (fun d => d.total_amount)).sum

/-- The payment in hand, as a (zero- or one-element) list. -/
def optPayList : Option (PaymentR × Nat) → List PaymentR
  | none => []
  | some pc => [pc.1]

/-- The debt in hand, as a (zero- or one-element) list. -/
def optDebtList : Option (DebtR × Nat) → List DebtR
  | none => []
  | some dc => [dc.1]

/-- Every split yielded by the phase-2 loop is chronologically sound: the
loop only reaches the `yield` once `payment.timestamp < debt.timestamp`
has been refuted. -/
theorem phase2_chrono (pc : Option (PaymentR × Nat)) (dc : Option (DebtR × Nat))
    (ps : List PaymentR) (ds : List DebtR) :
    ∀ s ∈ (phase2 pc dc ps ds).1, s.debt.timestamp ≤ s.payment.timestamp := by
  induction pc, dc, ps, ds using phase2.induct with
  | case1 pc ps => simp [phase2.eq_1]
  | case2 pc ps d ds ih => rw [phase2.eq_2]; exact ih
  | case3 pc d ps d' ds' ih =>
    rw [phase2_debt_adv]; exact ih
  | case4 pc d ps => simp [phase2_debt_exhausted]
  | case5 d rem ds h p ps' ih =>
    rw [phase2_pay_adv_none d rem ds p ps' h]; exact ih
  | case6 d rem ds h => simp [phase2_pay_exhausted_none d rem ds h]
  | case7 d rem ds h p p' ps' _ ih =>
    rw [phase2_pay_adv_zero d rem ds p p' ps' h]; exact ih
  | case8 d rem ds h p c hg p' ps' hc ih =>
    rw [phase2_pay_adv_pos d rem ds p c p' ps' h hc (hg.resolve_left hc)]
    exact ih
  | case9 d rem ds h p _ => simp [phase2_pay_exhausted_zero d rem ds p h]
  | case10 d rem ds h p c hg hc =>
    simp [phase2_pay_exhausted_pos d rem ds p c h hc (hg.resolve_left hc)]
  | case11 d rem ps ds h p c hg amt ih =>
    rw [phase2_split d rem ps ds p c h (fun hc => hg (Or.inl hc))
      (fun hts => hg (Or.inr hts))]
    intro s hs
    rcases List.mem_cons.mp hs with rfl | hs'
    · simpa using le_of_not_lt (fun hts => hg (Or.inr hts))
    · exact ih s hs'

/-- Conservation on the payment side: phase 2 never emits more than the
credit it has seen (credit in hand plus credit still in the iterator). -/
theorem phase2_amount_le_credits (pc : Option (PaymentR × Nat))
    (dc : Option (DebtR × Nat)) (ps : List PaymentR) (ds : List DebtR) :
    splitsAmount (phase2 pc dc ps ds).1 ≤ creditOf pc + creditsSum ps := by
  induction pc, dc, ps, ds using phase2.induct with
  | case1 pc ps => simp [phase2.eq_1, splitsAmount]
  | case2 pc ps d ds ih => rw [phase2.eq_2]; exact ih
  | case3 pc d ps d' ds' ih => rw [phase2_debt_adv]; exact ih
  | case4 pc d ps => simp [phase2_debt_exhausted, splitsAmount]
  | case5 d rem ds h p ps' ih =>
    rw [phase2_pay_adv_none d rem ds p ps' h]
    simp only [creditOf, creditsSum, List.map_cons, List.sum_cons] at *
    omega
  | case6 d rem ds h => simp [phase2_pay_exhausted_none d rem ds h, splitsAmount]
  | case7 d rem ds h p p' ps' _ ih =>
    rw [phase2_pay_adv_zero d rem ds p p' ps' h]
    simp only [creditOf, creditsSum, List.map_cons, List.sum_cons] at *
    omega
  | case8 d rem ds h p c hg p' ps' hc ih =>
    rw [phase2_pay_adv_pos d rem ds p c p' ps' h hc (hg.resolve_left hc)]
    simp only [creditOf, creditsSum, List.map_cons, List.sum_cons] at *
    omega
  | case9 d rem ds h p _ => simp [phase2_pay_exhausted_zero d rem ds p h, splitsAmount]
  | case10 d rem ds h p c hg hc =>
    simp [phase2_pay_exhausted_pos d rem ds p c h hc (hg.resolve_left hc), splitsAmount]
  | case11 d rem ps ds h p c hg amt ih =>
    have hamt : amt = rem ⊓ c := rfl
    rw [hamt] at ih
    rw [phase2_split d rem ps ds p c h (fun hc => hg (Or.inl hc))
      (fun hts => hg (Or.inr hts))]
    simp only [creditOf, splitsAmount, List.map_cons, List.sum_cons, min_def] at *
    omega

/-- Conservation on the debt side: phase 2 never emits more than the debt
balance it has seen (remainder in hand plus balances in the iterator). -/
theorem phase2_amount_le_balances (pc : Option (PaymentR × Nat))
    (dc : Option (DebtR × Nat)) (ps : List PaymentR) (ds : List DebtR) :
    splitsAmount (phase2 pc dc ps ds).1 ≤ debtRemOf dc + balancesSum ds := by
  induction pc, dc, ps, ds using phase2.induct with
  | case1 pc ps => simp [phase2.eq_1, splitsAmount]
  | case2 pc ps d ds ih =>
    rw [phase2.eq_2]
    simp only [debtRemOf, balancesSum, List.map_cons, List.sum_cons] at *
    omega
  | case3 pc d ps d' ds' ih =>
    rw [phase2_debt_adv]
    simp only [debtRemOf, balancesSum, List.map_cons, List.sum_cons] at *
    omega
  | case4 pc d ps => simp [phase2_debt_exhausted, splitsAmount]
  | case5 d rem ds h p ps' ih =>
    rw [phase2_pay_adv_none d rem ds p ps' h]; exact ih
  | case6 d rem ds h => simp [phase2_pay_exhausted_none d rem ds h, splitsAmount]
  | case7 d rem ds h p p' ps' _ ih =>
    rw [phase2_pay_adv_zero d rem ds p p' ps' h]; exact ih
  | case8 d rem ds h p c hg p' ps' hc ih =>
    rw [phase2_pay_adv_pos d rem ds p c p' ps' h hc (hg.resolve_left hc)]
    exact ih
  | case9 d rem ds h p _ => simp [phase2_pay_exhausted_zero d rem ds p h, splitsAmount]
  | case10 d rem ds h p c hg hc =>
    simp [phase2_pay_exhausted_pos d rem ds p c h hc (hg.resolve_left hc), splitsAmount]
  | case11 d rem ps ds h p c hg amt ih =>
    have hamt : amt = rem ⊓ c := rfl
    rw [hamt] at ih
    rw [phase2_split d rem ps ds p c h (fun hc => hg (Or.inl hc))
      (fun hts => hg (Or.inr hts))]
    simp only [debtRemOf, splitsAmount, List.map_cons, List.sum_cons, min_def] at *
    omega

/-- Payment bookkeeping of phase 2: counting multiplicities, the payments
reported in `fully_used_payments` and `remaining_payments` are drawn from
the payment in hand and the iterator, each consumed at most once. -/
theorem phase2_payment_count (x : PaymentR) (pc : Option (PaymentR × Nat))
    (dc : Option (DebtR × Nat)) (ps : List PaymentR) (ds : List DebtR) :
    ((phase2 pc dc ps ds).2.fully_used_payments ++
        (phase2 pc dc ps ds).2.remaining_payments).count x ≤
      (optPayList pc ++ ps).count x := by
  induction pc, dc, ps, ds using phase2.induct with
  | case1 pc ps =>
    rw [phase2.eq_1]
    rcases pc with _ | ⟨p, c⟩ <;>
      simp [remPay, optPayList, List.count_append, List.count_cons] <;>
      split <;> simp [List.count_cons] <;> omega
  | case2 pc ps d ds ih => rw [phase2.eq_2]; exact ih
  | case3 pc d ps d' ds' ih => rw [phase2_debt_adv]; exact ih
  | case4 pc d ps =>
    rw [phase2_debt_exhausted]
    rcases pc with _ | ⟨p, c⟩ <;>
      simp [remPay, optPayList, List.count_append, List.count_cons] <;>
      split <;> simp [List.count_cons] <;> omega
  | case5 d rem ds h p ps' ih =>
    rw [phase2_pay_adv_none d rem ds p ps' h]
    simp only [optPayList, List.count_append, List.count_cons, List.count_nil] at *
    omega
  | case6 d rem ds h => simp [phase2_pay_exhausted_none d rem ds h]
  | case7 d rem ds h p p' ps' _ ih =>
    rw [phase2_pay_adv_zero d rem ds p p' ps' h]
    simp only [optPayList, List.count_append, List.count_cons, List.count_nil,
      List.cons_append] at *
    omega
  | case8 d rem ds h p c hg p' ps' hc ih =>
    rw [phase2_pay_adv_pos d rem ds p c p' ps' h hc (hg.resolve_left hc)]
    simp only [optPayList, List.count_append, List.count_cons, List.count_nil,
      List.cons_append] at *
    omega
  | case9 d rem ds h p _ =>
    simp [phase2_pay_exhausted_zero d rem ds p h, optPayList,
      List.count_append, List.count_cons]
  | case10 d rem ds h p c hg hc =>
    simp [phase2_pay_exhausted_pos d rem ds p c h hc (hg.resolve_left hc),
      optPayList, List.count_append, List.count_cons]
  | case11 d rem ps ds h p c hg amt ih =>
    rw [phase2_split d rem ps ds p c h (fun hc => hg (Or.inl hc))
      (fun hts => hg (Or.inr hts))]
    exact ih

/-- Debt bookkeeping of phase 2, dual to `phase2_payment_count`. -/
theorem phase2_debt_count (x : DebtR) (pc : Option (PaymentR × Nat))
    (dc : Option (DebtR × Nat)) (ps : List PaymentR) (ds : List DebtR) :
    ((phase2 pc dc ps ds).2.fully_paid_debts ++
        (phase2 pc dc ps ds).2.remaining_debts).count x ≤
      (optDebtList dc ++ ds).count x := by
  induction pc, dc, ps, ds using phase2.induct with
  | case1 pc ps => simp [phase2.eq_1]
  | case2 pc ps d ds ih =>
    rw [phase2.eq_2]
    simp only [optDebtList, List.count_append, List.count_cons, List.count_nil] at *
    omega
  | case3 pc d ps d' ds' ih =>
    rw [phase2_debt_adv]
    simp only [optDebtList, List.count_append, List.count_cons, List.count_nil,
      List.cons_append] at *
    omega
  | case4 pc d ps =>
    simp [phase2_debt_exhausted, optDebtList, List.count_append, List.count_cons]
  | case5 d rem ds h p ps' ih =>
    rw [phase2_pay_adv_none d rem ds p ps' h]; exact ih
  | case6 d rem ds h =>
    simp [phase2_pay_exhausted_none d rem ds h, optDebtList,
      List.count_append, List.count_cons]
  | case7 d rem ds h p p' ps' _ ih =>
    rw [phase2_pay_adv_zero d rem ds p p' ps' h]; exact ih
  | case8 d rem ds h p c hg p' ps' hc ih =>
    rw [phase2_pay_adv_pos d rem ds p c p' ps' h hc (hg.resolve_left hc)]
    exact ih
  | case9 d rem ds h p _ =>
    simp [phase2_pay_exhausted_zero d rem ds p h, optDebtList,
      List.count_append, List.count_cons]
  | case10 d rem ds h p c hg hc =>
    simp [phase2_pay_exhausted_pos d rem ds p c h hc (hg.resolve_left hc),
      optDebtList, List.count_append, List.count_cons]
  | case11 d rem ps ds h p c hg amt ih =>
    rw [phase2_split d rem ps ds p c h (fun hc => hg (Or.inl hc))
      (fun hts => hg (Or.inr hts))]
    exact ih

/-- Every split yielded by phase 2 carries a payment drawn from the payment
in hand or the payments iterator. -/
theorem phase2_split_payment_mem (pc : Option (PaymentR × Nat))
    (dc : Option (DebtR × Nat)) (ps : List PaymentR) (ds : List DebtR) :
    ∀ s ∈ (phase2 pc dc ps ds).1, s.payment ∈ optPayList pc ++ ps := by
  induction pc, dc, ps, ds using phase2.induct with
  | case1 pc ps => simp [phase2.eq_1]
  | case2 pc ps d ds ih => rw [phase2.eq_2]; exact ih
  | case3 pc d ps d' ds' ih => rw [phase2_debt_adv]; exact ih
  | case4 pc d ps => simp [phase2_debt_exhausted]
  | case5 d rem ds h p ps' ih =>
    rw [phase2_pay_adv_none d rem ds p ps' h]
    intro s hs
    have := ih s hs
    simp only [optPayList, List.cons_append, List.nil_append, List.mem_cons,
      List.mem_append] at *
    tauto
  | case6 d rem ds h => simp [phase2_pay_exhausted_none d rem ds h]
  | case7 d rem ds h p p' ps' _ ih =>
    rw [phase2_pay_adv_zero d rem ds p p' ps' h]
    intro s hs
    have := ih s hs
    simp only [optPayList, List.cons_append, List.nil_append, List.mem_cons,
      List.mem_append] at *
    tauto
  | case8 d rem ds h p c hg p' ps' hc ih =>
    rw [phase2_pay_adv_pos d rem ds p c p' ps' h hc (hg.resolve_left hc)]
    intro s hs
    have := ih s hs
    simp only [optPayList, List.cons_append, List.nil_append, List.mem_cons,
      List.mem_append] at *
    tauto
  | case9 d rem ds h p _ => simp [phase2_pay_exhausted_zero d rem ds p h]
  | case10 d rem ds h p c hg hc =>
    simp [phase2_pay_exhausted_pos d rem ds p c h hc (hg.resolve_left hc)]
  | case11 d rem ps ds h p c hg amt ih =>
    rw [phase2_split d rem ps ds p c h (fun hc => hg (Or.inl hc))
      (fun hts => hg (Or.inr hts))]
    intro s hs
    rcases List.mem_cons.mp hs with rfl | hs'
    · simp [optPayList]
    · exact ih s hs'

/-! ### Properties of the exact-match phase -/

/-- Characterisation of the `next((ix, d) for ...)` search of phase 1: it
returns the first debt in the candidate list that matches the payment
exactly, together with the candidate list with that debt deleted. -/
theorem findExact_spec (p : PaymentR) (ds : List DebtR) :
    (findExact p ds = none → ∀ d ∈ ds, exactMatchPred p d = false) ∧
    (∀ d rest, findExact p ds = some (d, rest) →
      ∃ l1 l2, ds = l1 ++ d :: l2 ∧ rest = l1 ++ l2 ∧
        exactMatchPred p d = true ∧ ∀ d' ∈ l1, exactMatchPred p d' = false) := by
  induction ds with
  | nil => simp [findExact]
  | cons d0 ds ih =>
    by_cases h0 : exactMatchPred p d0
    · refine ⟨by simp [findExact, h0], ?_⟩
      intro d rest hfind
      rw [findExact, if_pos h0] at hfind
      obtain ⟨rfl, rfl⟩ : d0 = d ∧ ds = rest := by
        simpa using hfind
      exact ⟨[], ds, by simp, by simp, h0, by simp⟩
    · constructor
      · intro hnone
        rw [findExact, if_neg h0] at hnone
        intro d hd
        rcases List.mem_cons.mp hd with rfl | hd'
        · simpa using h0
        · exact ih.1 (by simpa using hnone) d hd'
      · intro d rest hfind
        rw [findExact, if_neg h0] at hfind
        rcases hrec : findExact p ds with _ | ⟨d1, rest1⟩
        · rw [hrec] at hfind; simp at hfind
        · rw [hrec] at hfind
          obtain ⟨rfl, rfl⟩ : d1 = d ∧ d0 :: rest1 = rest := by
            simpa using hfind
          obtain ⟨l1, l2, hds, hrest, hpred, hnone⟩ := ih.2 d1 rest1 hrec
          refine ⟨d0 :: l1, l2, by simp [hds], by simp [hrest], hpred, ?_⟩
          intro d' hd'
          rcases List.mem_cons.mp hd' with rfl | hd''
          · simpa using h0
          · exact hnone d' hd''

/-- Deleting the matched debt is a permutation:
`debt_list ~ exact_match :: remaining candidates`. -/
theorem findExact_perm (p : PaymentR) (ds : List DebtR) (d : DebtR)
    (rest : List DebtR) (h : findExact p ds = some (d, rest)) :
    ds.Perm (d :: rest) := by
  obtain ⟨l1, l2, hds, hrest, -, -⟩ := (findExact_spec p ds).2 d rest h
  rw [hds, hrest]
  exact List.perm_middle

/-- Phase-1 splits satisfy the chronology constraint, by construction of
the exact-match predicate. -/
theorem phase1_chrono (ps : List PaymentR) (ds : List DebtR) :
    ∀ s ∈ (phase1 ps ds).splits, s.debt.timestamp ≤ s.payment.timestamp := by
  induction ps generalizing ds with
  | nil => simp [phase1]
  | cons p ps ih =>
    intro s hs
    rw [phase1] at hs
    rcases hfind : findExact p ds with _ | ⟨d, ds'⟩
    · rw [hfind] at hs
      exact ih ds s hs
    · rw [hfind] at hs
      rcases List.mem_cons.mp hs with rfl | hs'
      · obtain ⟨-, -, -, -, hpred, -⟩ := (findExact_spec p ds).2 d ds' hfind
        simp only [exactMatchPred, Bool.and_eq_true, beq_iff_eq,
          decide_eq_true_eq] at hpred
        simpa using hpred.2
      · exact ih ds' s hs'

/-- Credit conservation of phase 1: yielded amounts plus the credit of the
deferred payments add up to the credit of all payments. -/
theorem phase1_pay_sum (ps : List PaymentR) (ds : List DebtR) :
    splitsAmount (phase1 ps ds).splits + creditsSum (phase1 ps ds).payments_todo =
      creditsSum ps := by
  induction ps generalizing ds with
  | nil => simp [phase1, splitsAmount, creditsSum]
  | cons p ps ih =>
    rw [phase1]
    rcases hfind : findExact p ds with _ | ⟨d, ds'⟩
    · have := ih ds
      simp only [splitsAmount, creditsSum, List.map_cons, List.sum_cons] at *
      omega
    · have := ih ds'
      simp only [splitsAmount, creditsSum, List.map_cons, List.sum_cons] at *
      omega

/-- Balance conservation of phase 1: yielded amounts plus the balances of
the surviving candidate debts add up to the balances of all debts. -/
theorem phase1_debt_sum (ps : List PaymentR) (ds : List DebtR) :
    splitsAmount (phase1 ps ds).splits + balancesSum (phase1 ps ds).debts_left =
      balancesSum ds := by
  induction ps generalizing ds with
  | nil => simp [phase1, splitsAmount, balancesSum]
  | cons p ps ih =>
    rw [phase1]
    rcases hfind : findExact p ds with _ | ⟨d, ds'⟩
    · exact ih ds
    · have hperm := findExact_perm p ds d ds' hfind
      have hsum : balancesSum ds = d.balance + balancesSum ds' := by
        have := (hperm.map (fun x => x.balance)).sum_eq
        simpa [balancesSum] using this
      obtain ⟨-, -, -, -, hpred, -⟩ := (findExact_spec p ds).2 d ds' hfind
      simp only [exactMatchPred, Bool.and_eq_true, beq_iff_eq,
        decide_eq_true_eq] at hpred
      have := ih ds'
      simp only [splitsAmount, List.map_cons, List.sum_cons] at *
      omega

/-- Payment bookkeeping of phase 1: every payment goes either to
`fully_used` or to `payments_todo`, with multiplicity preserved. -/
theorem phase1_pay_count (x : PaymentR) (ps : List PaymentR) (ds : List DebtR) :
    ((phase1 ps ds).fully_used ++ (phase1 ps ds).payments_todo).count x =
      ps.count x := by
  induction ps generalizing ds with
  | nil => simp [phase1]
  | cons p ps ih =>
    rw [phase1]
    rcases hfind : findExact p ds with _ | ⟨d, ds'⟩
    · have := ih ds
      simp only [List.count_append, List.count_cons] at *
      omega
    · have := ih ds'
      simp only [List.cons_append, List.count_append, List.count_cons] at *
      omega

/-- Debt bookkeeping of phase 1: every debt goes either to `fully_paid` or
survives in `debts_left`, with multiplicity preserved. -/
theorem phase1_debt_count (x : DebtR) (ps : List PaymentR) (ds : List DebtR) :
    ((phase1 ps ds).fully_paid ++ (phase1 ps ds).debts_left).count x =
      ds.count x := by
  induction ps generalizing ds with
  | nil => simp [phase1]
  | cons p ps ih =>
    rw [phase1]
    rcases hfind : findExact p ds with _ | ⟨d, ds'⟩
    · exact ih ds
    · have hperm := findExact_perm p ds d ds' hfind
      have hcount : ds.count x = (d :: ds').count x := hperm.count_eq x
      have := ih ds'
      simp only [List.cons_append, List.count_append, List.count_cons] at *
      omega

/-- The payments of the phase-1 splits are exactly the payments marked
fully used, in order: phase 1 yields one split per matched payment. -/
theorem phase1_splits_payments (ps : List PaymentR) (ds : List DebtR) :
    (phase1 ps ds).splits.map (fun s => s.payment) = (phase1 ps ds).fully_used := by
  induction ps generalizing ds with
  | nil => simp [phase1]
  | cons p ps ih =>
    rw [phase1]
    rcases hfind : findExact p ds with _ | ⟨d, ds'⟩
    · exact ih ds
    · simpa using ih ds'

/-- Data carried by each phase-1 split: the amount is the payment's full
`credit_remaining`, the debt matches it exactly, is not younger than the
payment, and is reported fully paid. -/
theorem phase1_splits_props (ps : List PaymentR) (ds : List DebtR) :
    ∀ s ∈ (phase1 ps ds).splits,
      s.amount = s.payment.credit_remaining ∧
      s.debt.balance = s.payment.credit_remaining ∧
      s.debt.timestamp ≤ s.payment.timestamp ∧
      s.debt ∈ (phase1 ps ds).fully_paid := by
  induction ps generalizing ds with
  | nil => simp [phase1]
  | cons p ps ih =>
    intro s hs
    rcases hfind : findExact p ds with _ | ⟨d, ds'⟩ <;> rw [phase1, hfind] at hs ⊢
    · exact ih ds s hs
    · obtain ⟨-, -, -, -, hpred, -⟩ := (findExact_spec p ds).2 d ds' hfind
      simp only [exactMatchPred, Bool.and_eq_true, beq_iff_eq,
        decide_eq_true_eq] at hpred
      rcases List.mem_cons.mp hs with rfl | hs'
      · exact ⟨rfl, hpred.1, hpred.2, by simp⟩
      · obtain ⟨h1, h2, h3, h4⟩ := ih ds' s hs'
        exact ⟨h1, h2, h3, by simp [h4]⟩

/-! ### Normal forms of `make_payment_splits` by flag configuration -/

theorem mps_no_flags (payments : List PaymentR) (debts : List DebtR) :
    make_payment_splits payments debts false false =
      phase2 none none payments debts := by
  simp [make_payment_splits]

theorem mps_exact_only (payments : List PaymentR) (debts : List DebtR)
    (prioritise : Bool) :
    make_payment_splits payments debts prioritise true =
      ((phase1 payments debts).splits,
        ⟨(phase1 payments debts).fully_used, (phase1 payments debts).fully_paid,
          (phase1 payments debts).payments_todo, (phase1 payments debts).debts_left⟩) := by
  cases prioritise <;> simp [make_payment_splits]

theorem mps_prioritise (payments : List PaymentR) (debts : List DebtR) :
    make_payment_splits payments debts true false =
      ((phase1 payments debts).splits ++
          (phase2 none none (phase1 payments debts).payments_todo
            (phase1 payments debts).debts_left).1,
        ⟨(phase1 payments debts).fully_used ++
            (phase2 none none (phase1 payments debts).payments_todo
              (phase1 payments debts).debts_left).2.fully_used_payments,
          (phase1 payments debts).fully_paid ++
            (phase2 none none (phase1 payments debts).payments_todo
              (phase1 payments debts).debts_left).2.fully_paid_debts,
          (phase2 none none (phase1 payments debts).payments_todo
            (phase1 payments debts).debts_left).2.remaining_payments,
          (phase2 none none (phase1 payments debts).payments_todo
            (phase1 payments debts).debts_left).2.remaining_debts⟩) := by
  simp [make_payment_splits]

theorem splitsAmount_append (a b : List Split) :
    splitsAmount (a ++ b) = splitsAmount a + splitsAmount b := by
  simp [splitsAmount]

/-! ### Claims about the apportionment engine -/

/-- Claim C2: for every run of the apportionment engine, in either phase,
every emitted split pairs a payment with a debt whose timestamp is not
later than the payment's. -/
theorem claim_C2_chronology (payments : List PaymentR) (debts : List DebtR)
    (prioritise exact_only : Bool) :
    ∀ s ∈ (make_payment_splits payments debts prioritise exact_only).1,
      s.debt.timestamp ≤ s.payment.timestamp := by
  cases exact_only with
  | true =>
    rw [mps_exact_only]
    exact phase1_chrono payments debts
  | false =>
    cases prioritise with
    | false =>
      rw [mps_no_flags]
      exact phase2_chrono none none payments debts
    | true =>
      rw [mps_prioritise]
      intro s hs
      rcases List.mem_append.mp hs with h | h
      · exact phase1_chrono payments debts s h
      · exact phase2_chrono none none _ _ s h

theorem claim_C2_chronology_witness :
    (⟨⟨100, 100, 2⟩, ⟨30, 30, 0⟩, 30⟩ : Split) ∈
      (make_payment_splits [⟨100, 100, 2⟩] [⟨30, 30, 0⟩, ⟨40, 40, 1⟩, ⟨50, 50, 2⟩]
        true false).1 ∧
    ((⟨30, 30, 0⟩ : DebtR)).timestamp ≤ ((⟨100, 100, 2⟩ : PaymentR)).timestamp := by
  have hmem : (⟨⟨100, 100, 2⟩, ⟨30, 30, 0⟩, 30⟩ : Split) ∈
      (make_payment_splits [⟨100, 100, 2⟩] [⟨30, 30, 0⟩, ⟨40, 40, 1⟩, ⟨50, 50, 2⟩]
        true false).1 := by
    simp [make_payment_splits, phase1, findExact, exactMatchPred, phase2.eq_def, remPay]
  exact ⟨hmem, claim_C2_chronology _ _ _ _ _ hmem⟩

/-- Claim C3: with no pre-existing splits (credit and balance annotations
equal to the respective totals), the total amount emitted never exceeds
the total payment amount nor the total debt amount. -/
theorem claim_C3_conservation (payments : List PaymentR) (debts : List DebtR)
    (prioritise exact_only : Bool)
    (hp : ∀ p ∈ payments, p.credit_remaining = p.total_amount)
    (hd : ∀ d ∈ debts, d.balance = d.total_amount) :
    splitsAmount (make_payment_splits payments debts prioritise exact_only).1 ≤
        totalsSumP payments ∧
    splitsAmount (make_payment_splits payments debts prioritise exact_only).1 ≤
        totalsSumD debts := by
  have hps : creditsSum payments = totalsSumP payments := by
    unfold creditsSum totalsSumP
    exact congrArg List.sum (List.map_congr_left hp)
  have hds : balancesSum debts = totalsSumD debts := by
    unfold balancesSum totalsSumD
    exact congrArg List.sum (List.map_congr_left hd)
  cases exact_only with
  | true =>
    rw [mps_exact_only]
    dsimp only
    have h1 := phase1_pay_sum payments debts
    have h2 := phase1_debt_sum payments debts
    omega
  | false =>
    cases prioritise with
    | false =>
      rw [mps_no_flags]
      have h1 := phase2_amount_le_credits none none payments debts
      have h2 := phase2_amount_le_balances none none payments debts
      simp only [creditOf, debtRemOf] at h1 h2
      omega
    | true =>
      rw [mps_prioritise]
      dsimp only
      rw [splitsAmount_append]
      have h1 := phase1_pay_sum payments debts
      have h2 := phase1_debt_sum payments debts
      have h3 := phase2_amount_le_credits none none
        (phase1 payments debts).payments_todo (phase1 payments debts).debts_left
      have h4 := phase2_amount_le_balances none none
        (phase1 payments debts).payments_todo (phase1 payments debts).debts_left
      simp only [creditOf, debtRemOf] at h3 h4
      omega

theorem claim_C3_conservation_witness :
    splitsAmount (make_payment_splits [⟨100, 100, 2⟩]
        [⟨30, 30, 0⟩, ⟨40, 40, 1⟩, ⟨50, 50, 2⟩] true false).1 ≤
      totalsSumP [⟨100, 100, 2⟩] ∧
    splitsAmount (make_payment_splits [⟨100, 100, 2⟩]
        [⟨30, 30, 0⟩, ⟨40, 40, 1⟩, ⟨50, 50, 2⟩] true false).1 ≤
      totalsSumD [⟨30, 30, 0⟩, ⟨40, 40, 1⟩, ⟨50, 50, 2⟩] :=
  claim_C3_conservation _ _ true false (by decide) (by decide)

/-- Claim C1 (amended): every input payment appears in *at most* one of
`fully_used_payments` / `remaining_payments`, and every input debt in at
most one of `fully_paid_debts` / `remaining_debts` — counting
multiplicities, the reported lists never contain an item more often than
the input did.  (The original "exactly one" fails: when one side of the
ledger is exhausted, items still pending on the other side — including a
just-fully-consumed current payment — are reported in neither list.) -/
theorem claim_C1_partition (payments : List PaymentR) (debts : List DebtR)
    (prioritise exact_only : Bool) (x : PaymentR) (y : DebtR) :
    ((make_payment_splits payments debts prioritise exact_only).2.fully_used_payments ++
        (make_payment_splits payments debts prioritise exact_only).2.remaining_payments).count x ≤
      payments.count x ∧
    ((make_payment_splits payments debts prioritise exact_only).2.fully_paid_debts ++
        (make_payment_splits payments debts prioritise exact_only).2.remaining_debts).count y ≤
      debts.count y := by
  cases exact_only with
  | true =>
    rw [mps_exact_only]
    dsimp only
    have h1 := phase1_pay_count x payments debts
    have h2 := phase1_debt_count y payments debts
    omega
  | false =>
    cases prioritise with
    | false =>
      rw [mps_no_flags]
      have h1 := phase2_payment_count x none none payments debts
      have h2 := phase2_debt_count y none none payments debts
      simp only [optPayList, optDebtList, List.nil_append] at h1 h2
      exact ⟨h1, h2⟩
    | true =>
      rw [mps_prioritise]
      dsimp only
      have h1 := phase1_pay_count x payments debts
      have h2 := phase1_debt_count y payments debts
      have h3 := phase2_payment_count x none none
        (phase1 payments debts).payments_todo (phase1 payments debts).debts_left
      have h4 := phase2_debt_count y none none
        (phase1 payments debts).payments_todo (phase1 payments debts).debts_left
      simp only [optPayList, optDebtList, List.nil_append] at h3 h4
      have h5 : (phase1 payments debts).debts_left.count y ≤
          ((phase1 payments debts).fully_paid ++ (phase1 payments debts).debts_left).count y := by
        simp only [List.count_append]; omega
      simp only [List.count_append] at *
      omega

/-- Counterexample to claim C1 as stated: with the default flags, input
payments `[⟨5,5,1⟩, ⟨7,7,1⟩]` and the single debt `[⟨5,5,0⟩]`, the first
payment exact-matches the debt, the debts iterator is then exhausted, and
the second payment ends up in *neither* `fully_used_payments` nor
`remaining_payments`. -/
theorem claim_C1_partition_counterexample :
    (⟨7, 7, 1⟩ : PaymentR) ∈ [(⟨5, 5, 1⟩ : PaymentR), ⟨7, 7, 1⟩] ∧
    (⟨7, 7, 1⟩ : PaymentR) ∉
      (make_payment_splits [⟨5, 5, 1⟩, ⟨7, 7, 1⟩] [⟨5, 5, 0⟩] true
        false).2.fully_used_payments ∧
    (⟨7, 7, 1⟩ : PaymentR) ∉
      (make_payment_splits [⟨5, 5, 1⟩, ⟨7, 7, 1⟩] [⟨5, 5, 0⟩] true
        false).2.remaining_payments := by
  have h : make_payment_splits [⟨5, 5, 1⟩, ⟨7, 7, 1⟩] [⟨5, 5, 0⟩] true false =
      ([⟨⟨5, 5, 1⟩, ⟨5, 5, 0⟩, 5⟩], ⟨[⟨5, 5, 1⟩], [⟨5, 5, 0⟩], [], []⟩) := by
    simp [make_payment_splits, phase1, findExact, exactMatchPred, phase2.eq_def, remPay]
  rw [h]
  refine ⟨by decide, by decide, by decide⟩

/-- Auxiliary count for C4: phase 1 marks a payment fully used at most as
often as it occurs in the input. -/
theorem phase1_fully_used_count_le (x : PaymentR) (ps : List PaymentR)
    (ds : List DebtR) :
    (phase1 ps ds).fully_used.count x ≤ ps.count x := by
  have h := phase1_pay_count x ps ds
  simp only [List.count_append] at h
  omega

/-- Auxiliary for C4: the number of splits of the whole run carrying a
given phase-1 payment equals its multiplicity in `fully_used`. -/
theorem phase1_filter_payment_length (p : PaymentR) (ps : List PaymentR)
    (ds : List DebtR) :
    ((phase1 ps ds).splits.filter (fun s => s.payment == p)).length =
      (phase1 ps ds).fully_used.count p := by
  rw [← List.countP_eq_length_filter]
  have hmap : List.countP (fun s => s.payment == p) (phase1 ps ds).splits =
      List.countP (· == p) ((phase1 ps ds).splits.map (fun s => s.payment)) := by
    rw [List.countP_map]
    rfl
  rw [hmap, phase1_splits_payments]
  rfl

/-- Claim C4: with `prioritise_exact_amount_match` (or
`exact_amount_match_only`) set, phase 1 pairs each payment with the
*first* candidate debt whose balance equals the payment's
`credit_remaining` and whose timestamp does not exceed the payment's,
removing that debt from the candidate list; a payment it marks fully used
receives exactly one split of the whole run — for its full
`credit_remaining`, against a debt reported fully paid — and is in
particular never split across several debts by phase 2. -/
theorem claim_C4_exact_match (payments : List PaymentR) (debts : List DebtR)
    (exact_only : Bool) (hnd : payments.Nodup) :
    (∀ (p : PaymentR) (ds : List DebtR) (d : DebtR) (rest : List DebtR),
      findExact p ds = some (d, rest) →
        ∃ l1 l2, ds = l1 ++ d :: l2 ∧ rest = l1 ++ l2 ∧
          d.balance = p.credit_remaining ∧ d.timestamp ≤ p.timestamp ∧
          ∀ d' ∈ l1,
            ¬(d'.balance = p.credit_remaining ∧ d'.timestamp ≤ p.timestamp)) ∧
    (∀ (p : PaymentR) (ds : List DebtR), findExact p ds = none →
      ∀ d ∈ ds,
        ¬(d.balance = p.credit_remaining ∧ d.timestamp ≤ p.timestamp)) ∧
    (∀ p ∈ (phase1 payments debts).fully_used,
      p ∈ (make_payment_splits payments debts true exact_only).2.fully_used_payments ∧
      ((make_payment_splits payments debts true exact_only).1.filter
          (fun s => s.payment == p)).length = 1 ∧
      ∀ s ∈ (make_payment_splits payments debts true exact_only).1,
        s.payment = p →
          s.amount = p.credit_remaining ∧ s.debt.balance = p.credit_remaining ∧
          s.debt.timestamp ≤ p.timestamp ∧
          s.debt ∈ (make_payment_splits payments debts true
            exact_only).2.fully_paid_debts) := by
  refine ⟨?_, ?_, ?_⟩
  · intro p ds d rest hfind
    obtain ⟨l1, l2, hds, hrest, hpred, hnone⟩ := (findExact_spec p ds).2 d rest hfind
    simp only [exactMatchPred, Bool.and_eq_true, beq_iff_eq, decide_eq_true_eq]
      at hpred
    refine ⟨l1, l2, hds, hrest, hpred.1, hpred.2, ?_⟩
    intro d' hd' hcontra
    have htrue : exactMatchPred p d' = true := by
      simp only [exactMatchPred, Bool.and_eq_true, beq_iff_eq, decide_eq_true_eq]
      exact ⟨hcontra.1, hcontra.2⟩
    rw [hnone d' hd'] at htrue
    simp at htrue
  · intro p ds hfind d hd hcontra
    have htrue : exactMatchPred p d = true := by
      simp only [exactMatchPred, Bool.and_eq_true, beq_iff_eq, decide_eq_true_eq]
      exact ⟨hcontra.1, hcontra.2⟩
    rw [(findExact_spec p ds).1 hfind d hd] at htrue
    simp at htrue
  · intro p hp
    -- multiplicity facts
    have hle1 : payments.count p ≤ 1 := List.nodup_iff_count_le_one.mp hnd p
    have hfu_pos : 0 < (phase1 payments debts).fully_used.count p :=
      List.count_pos_iff.mpr hp
    have hfu_le := phase1_fully_used_count_le p payments debts
    have hfu1 : (phase1 payments debts).fully_used.count p = 1 := by omega
    have htodo0 : (phase1 payments debts).payments_todo.count p = 0 := by
      have h := phase1_pay_count p payments debts
      simp only [List.count_append] at h
      omega
    have htodo_notmem : p ∉ (phase1 payments debts).payments_todo := by
      intro hmem
      have hpos : 0 < (phase1 payments debts).payments_todo.count p :=
        List.count_pos_iff.mpr hmem
      omega
    -- phase-2 splits never carry p
    have hph2 : ∀ s ∈ (phase2 none none (phase1 payments debts).payments_todo
        (phase1 payments debts).debts_left).1, ¬(s.payment = p) := by
      intro s hs hsp
      have := phase2_split_payment_mem none none
        (phase1 payments debts).payments_todo (phase1 payments debts).debts_left s hs
      simp only [optPayList, List.nil_append] at this
      rw [hsp] at this
      exact htodo_notmem this
    have hfilter2 : ((phase2 none none (phase1 payments debts).payments_todo
        (phase1 payments debts).debts_left).1.filter (fun s => s.payment == p)) = [] := by
      rw [List.filter_eq_nil]
      intro s hs
      simpa using hph2 s hs
    cases exact_only with
    | true =>
      rw [mps_exact_only]
      dsimp only
      refine ⟨hp, ?_, ?_⟩
      · rw [phase1_filter_payment_length, hfu1]
      · intro s hs hsp
        obtain ⟨h1, h2, h3, h4⟩ := phase1_splits_props payments debts s hs
        rw [hsp] at h1 h2 h3
        exact ⟨h1, h2, h3, h4⟩
    | false =>
      rw [mps_prioritise]
      dsimp only
      refine ⟨List.mem_append_left _ hp, ?_, ?_⟩
      · rw [List.filter_append, List.length_append,
          phase1_filter_payment_length, hfu1, hfilter2]
        rfl
      · intro s hs hsp
        rcases List.mem_append.mp hs with h | h
        · obtain ⟨h1, h2, h3, h4⟩ := phase1_splits_props payments debts s h
          rw [hsp] at h1 h2 h3
          exact ⟨h1, h2, h3, List.mem_append_left _ h4⟩
        · exact absurd hsp (hph2 s h)

theorem claim_C4_exact_match_witness :
    ((make_payment_splits [⟨5, 5, 1⟩] [⟨5, 5, 0⟩] true false).1.filter
        (fun s => s.payment == (⟨5, 5, 1⟩ : PaymentR))).length = 1 :=
  ((claim_C4_exact_match [⟨5, 5, 1⟩] [⟨5, 5, 0⟩] false (by decide)).2.2
    ⟨5, 5, 1⟩ (by decide)).2.1

/-! ### Duplicate detector (`DuplicationProtectedPreparator.validate_global`)

Timestamps here are modelled at day resolution (`timezone.localdate`
projections), matching what the detector actually compares: the first
component of a `dupcheck_signature` is the local date of the row's
timestamp (models/accounting/base.py 221-240), and the historical window
is also keyed on those dates. -/

/-- A `dupcheck_signature`: `(local_date(timestamp), total_amount.amount,
field values...)` (models/accounting/base.py 221-240; for internal
payments the extra fields are `nature` and `member_id`). -/
structure DupSig where
  date : Nat
  amount : Nat
  fields : List Nat
deriving DecidableEq, Repr

/-- A prepared batch row as seen by `validate_global`: its CSV line number
and the dupcheck signature of its ledger entry.  The row's local date is
the `date` component of the signature. -/
structure DupRow where
  line_no : Nat
  sig : DupSig
deriving DecidableEq, Repr

/-- One duplicate error (`self.error_at_lines(...)`, bulk_utils.py 441-446):
the sorted lines of the offending bucket, the signature whose
`dup_error_params` fill the message, the wording choice
(`occ_in_hist == occ_in_import == 1`), and the three counts. -/
structure DupError where
  line_nos : List Nat
  sig : DupSig
  single_wording : Bool
  occ_hist : Nat
  occ_import : Nat
  dupcount : Nat
deriving DecidableEq, Repr

/-- `DuplicationProtectedQuerySet.dupcheck_buckets` restricted to
`date_bounds = (lo, hi)` (models/accounting/base.py 337-356): the number
of historical entries with a given signature whose date lies in the
window. -/
def dupcheck_buckets (history : List DupSig) (lo hi : Nat) (s : DupSig) : Nat :=
  (history.filter (fun h => lo ≤ h.date && h.date ≤ hi)).count s

/-- First-occurrence deduplication of a signature list with an
accumulator of already-seen keys: the iteration order of the keys of the
Python `defaultdict` built at bulk_utils.py 418-421. -/
def uniqueSigsAux (seen : List DupSig) : List DupSig → List DupSig
  | [] => []
  | s :: rest =>
    if s ∈ seen then uniqueSigsAux seen rest
    else s :: uniqueSigsAux (s :: seen) rest

/-- First-occurrence deduplication of a signature list. -/
def uniqueSigs (l : List DupSig) : List DupSig := uniqueSigsAux [] l

/-- The `import_buckets` grouping (bulk_utils.py 418-421): buckets keyed
by signature in first-occurrence order, each bucket listing its rows in
batch order. -/
def import_buckets (batch : List DupRow) : List (DupSig × List DupRow) :=
  (uniqueSigs (batch.map (fun t => t.sig))).map
    (fun s => (s, batch.filter (fun t => t.sig == s)))

/-- `min(dates)` of the batch (Python `min`, bulk_utils.py 410-416). -/
def batchLo (batch : List DupRow) : Nat :=
  match batch.map (fun t => t.sig.date) with
  | [] => 0
  | d :: ds => ds.foldl min d

/-- `max(dates)` of the batch. -/
def batchHi (batch : List DupRow) : Nat :=
  match batch.map (fun t => t.sig.date) with
  | [] => 0
  | d :: ds => ds.foldl max d

/-- Insertion sort of line numbers: `sorted(line_nos)` in `error_at_lines`
(bulk_utils.py 205-207). -/
def insertSorted (n : Nat) : List Nat → List Nat
  | [] => [n]
  | m :: ms => if n ≤ m then n :: m :: ms else m :: insertSorted n ms

/-- Full insertion sort. -/
def sortNats : List Nat → List Nat
  | [] => []
  | n :: ns => insertSorted n (sortNats ns)

/-- `DuplicationProtectedPreparator.validate_global`
(bulk_utils.py 405-452): group the batch by signature, load historical
counts over the batch's date window, and for each bucket whose signature
occurs in history emit one error over all the bucket's lines and drop the
first `min(occ_hist, occ_import)` rows; buckets without historical
matches pass through unchanged.  Returns the emitted errors (in emission
order) and the surviving rows (in bucket order). -/
def validate_global (history : List DupSig) (batch : List DupRow) :
    List DupError × List DupRow :=
  if batch.isEmpty then ([], [])
  else
    let hist := dupcheck_buckets history (batchLo batch) (batchHi batch)
    let buckets := import_buckets batch
    (buckets.bind (fun b =>
        let occ_hist := hist b.1
        let occ_import := b.2.length
        if occ_hist ≠ 0 then
          [⟨sortNats (b.2.map (fun t => t.line_no)), b.1,
            occ_hist == 1 && occ_import == 1,
            occ_hist, occ_import, min occ_hist occ_import⟩]
        else []),
      buckets.bind (fun b => b.2.drop (min (hist b.1) b.2.length)))

theorem mem_uniqueSigsAux (x : DupSig) (l : List DupSig) :
    ∀ seen, x ∈ uniqueSigsAux seen l ↔ x ∈ l ∧ x ∉ seen := by
  induction l with
  | nil => simp [uniqueSigsAux]
  | cons s rest ih =>
    intro seen
    by_cases hs : s ∈ seen
    · rw [uniqueSigsAux, if_pos hs, ih seen]
      constructor
      · rintro ⟨h1, h2⟩; exact ⟨List.mem_cons_of_mem _ h1, h2⟩
      · rintro ⟨h1, h2⟩
        rcases List.mem_cons.mp h1 with rfl | h1'
        · exact absurd hs h2
        · exact ⟨h1', h2⟩
    · rw [uniqueSigsAux, if_neg hs]
      constructor
      · intro hmem
        rcases List.mem_cons.mp hmem with rfl | h1
        · exact ⟨List.mem_cons_self _ _, hs⟩
        · obtain ⟨h2, h3⟩ := (ih (s :: seen)).mp h1
          exact ⟨List.mem_cons_of_mem _ h2,
            fun hseen => h3 (List.mem_cons_of_mem _ hseen)⟩
      · rintro ⟨h1, h2⟩
        rcases List.mem_cons.mp h1 with rfl | h1'
        · exact List.mem_cons_self _ _
        · by_cases hxs : x = s
          · subst hxs; exact List.mem_cons_self _ _
          · exact List.mem_cons_of_mem _ ((ih (s :: seen)).mpr
              ⟨h1', by simp [hxs, h2]⟩)

theorem mem_uniqueSigs (x : DupSig) (l : List DupSig) :
    x ∈ uniqueSigs l ↔ x ∈ l := by
  rw [uniqueSigs, mem_uniqueSigsAux]
  simp

theorem nodup_uniqueSigsAux (l : List DupSig) :
    ∀ seen, (uniqueSigsAux seen l).Nodup := by
  induction l with
  | nil => intro seen; simp [uniqueSigsAux]
  | cons s rest ih =>
    intro seen
    by_cases hs : s ∈ seen
    · rw [uniqueSigsAux, if_pos hs]; exact ih seen
    · rw [uniqueSigsAux, if_neg hs]
      refine List.nodup_cons.mpr ⟨?_, ih (s :: seen)⟩
      intro hmem
      exact ((mem_uniqueSigsAux s rest (s :: seen)).mp hmem).2
        (List.mem_cons_self _ _)

theorem nodup_uniqueSigs (l : List DupSig) : (uniqueSigs l).Nodup :=
  nodup_uniqueSigsAux l []

/-- Filtering a flattened family by a key that is constant on each member
selects exactly the member of the (duplicate-free) key list, if any. -/
theorem bind_filter_single {β : Type} (sigs : List DupSig) (g : DupSig → List β)
    (q : β → DupSig) (s : DupSig) (hnd : sigs.Nodup)
    (hg : ∀ s', ∀ b ∈ g s', q b = s') :
    ((sigs.bind g).filter (fun b => q b == s)) = if s ∈ sigs then g s else [] := by
  induction sigs with
  | nil => simp
  | cons a sigs ih =>
    obtain ⟨hna, hnd'⟩ := List.nodup_cons.mp hnd
    have hcons : (a :: sigs).bind g = g a ++ sigs.bind g := rfl
    rw [hcons, List.filter_append, ih hnd']
    by_cases has : a = s
    · subst has
      rw [if_pos (List.mem_cons_self _ _), if_neg hna]
      have : (g a).filter (fun b => q b == a) = g a := by
        rw [List.filter_eq_self]
        intro b hb
        simp [hg a b hb]
      rw [this, List.append_nil]
    · have : (g a).filter (fun b => q b == s) = [] := by
        rw [List.filter_eq_nil]
        intro b hb
        simp [hg a b hb, has]
      rw [this, List.nil_append]
      by_cases hmem : s ∈ sigs
      · rw [if_pos hmem, if_pos (List.mem_cons_of_mem _ hmem)]
      · rw [if_neg hmem, if_neg (by
          intro hc
          rcases List.mem_cons.mp hc with rfl | hc'
          · exact has rfl
          · exact hmem hc')]


theorem map_bind_dup {α β γ : Type} (l : List α) (f : α → β) (g : β → List γ) :
    (l.map f).bind g = l.bind (fun x => g (f x)) := by
  induction l with
  | nil => rfl
  | cons a l ih =>
    have h1 : ((a :: l).map f).bind g = g (f a) ++ (l.map f).bind g := rfl
    have h2 : (a :: l).bind (fun x => g (f x)) =
        g (f a) ++ l.bind (fun x => g (f x)) := rfl
    rw [h1, h2, ih]

/-- A signature occurs among the batch's (deduplicated) signatures exactly
when its bucket is non-empty. -/
theorem sig_mem_iff_bucket (batch : List DupRow) (s : DupSig) :
    s ∈ uniqueSigs (batch.map (fun t => t.sig)) ↔
      batch.filter (fun t => t.sig == s) ≠ [] := by
  rw [mem_uniqueSigs]
  constructor
  · intro h hnil
    obtain ⟨t, ht, hts⟩ := List.mem_map.mp h
    have hmem : t ∈ batch.filter (fun t => t.sig == s) :=
      List.mem_filter.mpr ⟨ht, by simp [hts]⟩
    rw [hnil] at hmem
    simp at hmem
  · intro h
    rcases hfil : batch.filter (fun t => t.sig == s) with _ | ⟨t, ts⟩
    · exact absurd hfil h
    · have hmem : t ∈ batch.filter (fun t => t.sig == s) := by
        rw [hfil]; exact List.mem_cons_self _ _
      obtain ⟨ht, hts⟩ := List.mem_filter.mp hmem
      exact List.mem_map.mpr ⟨t, ht, by simpa using hts⟩

/-- The error bucket the detector emits for one signature (read off the
body of `strip_duplicates`, bulk_utils.py 423-450): a singleton when the
signature has historical occurrences, nothing otherwise. -/
def dupErrFor (history : List DupSig) (batch : List DupRow) (s' : DupSig) :
    List DupError :=
  if dupcheck_buckets history (batchLo batch) (batchHi batch) s' ≠ 0 then
    [⟨sortNats ((batch.filter (fun t => t.sig == s')).map (fun t => t.line_no)), s',
      dupcheck_buckets history (batchLo batch) (batchHi batch) s' == 1 &&
        (batch.filter (fun t => t.sig == s')).length == 1,
      dupcheck_buckets history (batchLo batch) (batchHi batch) s',
      (batch.filter (fun t => t.sig == s')).length,
      min (dupcheck_buckets history (batchLo batch) (batchHi batch) s')
        (batch.filter (fun t => t.sig == s')).length⟩]
  else []

/-- The rows the detector passes through for one signature: its bucket
minus the first `dupcount` entries (`yield from transactions[dupcount:]`,
bulk_utils.py 450). -/
def dupSurFor (history : List DupSig) (batch : List DupRow) (s' : DupSig) :
    List DupRow :=
  (batch.filter (fun t => t.sig == s')).drop
    (min (dupcheck_buckets history (batchLo batch) (batchHi batch) s')
      (batch.filter (fun t => t.sig == s')).length)

/-- `validate_global` on a non-empty batch, as per-signature families over
the deduplicated signature list. -/
theorem validate_global_eq (history : List DupSig) (batch : List DupRow)
    (hne : batch ≠ []) :
    validate_global history batch =
      ((uniqueSigs (batch.map (fun t => t.sig))).bind (dupErrFor history batch),
        (uniqueSigs (batch.map (fun t => t.sig))).bind (dupSurFor history batch)) := by
  rw [validate_global, if_neg (by simpa [List.isEmpty_iff] using hne)]
  simp only [import_buckets, map_bind_dup, dupErrFor, dupSurFor]
  rfl

theorem dupErrFor_sig (history : List DupSig) (batch : List DupRow)
    (s' : DupSig) : ∀ e ∈ dupErrFor history batch s', e.sig = s' := by
  intro e he
  rw [dupErrFor] at he
  by_cases hc : dupcheck_buckets history (batchLo batch) (batchHi batch) s' ≠ 0
  · rw [if_pos hc] at he
    simp only [List.mem_singleton] at he
    rw [he]
  · rw [if_neg hc] at he
    simp at he

theorem dupSurFor_sig (history : List DupSig) (batch : List DupRow)
    (s' : DupSig) : ∀ t ∈ dupSurFor history batch s', t.sig = s' := by
  intro t ht
  rw [dupSurFor] at ht
  have := (List.mem_filter.mp (List.mem_of_mem_drop ht)).2
  simpa using this

/-- Claim C5: the duplicate detector groups the batch by dupcheck
signature; a signature with a non-zero historical count (over the batch's
date window) and a non-empty bucket yields exactly one error carrying the
sorted line numbers of *all* the bucket's rows, and exactly the first
`min(occ_hist, occ_import)` rows of that bucket are dropped; a signature
absent from history passes through unchanged with no error. -/
theorem claim_C5_duplicate_detector (history : List DupSig)
    (batch : List DupRow) (s : DupSig) (hne : batch ≠ []) :
    (dupcheck_buckets history (batchLo batch) (batchHi batch) s ≠ 0 →
      batch.filter (fun t => t.sig == s) ≠ [] →
      (validate_global history batch).1.filter (fun e => e.sig == s) =
        [⟨sortNats ((batch.filter (fun t => t.sig == s)).map (fun t => t.line_no)), s,
          dupcheck_buckets history (batchLo batch) (batchHi batch) s == 1 &&
            (batch.filter (fun t => t.sig == s)).length == 1,
          dupcheck_buckets history (batchLo batch) (batchHi batch) s,
          (batch.filter (fun t => t.sig == s)).length,
          min (dupcheck_buckets history (batchLo batch) (batchHi batch) s)
            (batch.filter (fun t => t.sig == s)).length⟩] ∧
      (validate_global history batch).2.filter (fun t => t.sig == s) =
        (batch.filter (fun t => t.sig == s)).drop
          (min (dupcheck_buckets history (batchLo batch) (batchHi batch) s)
            (batch.filter (fun t => t.sig == s)).length)) ∧
    (dupcheck_buckets history (batchLo batch) (batchHi batch) s = 0 →
      (validate_global history batch).2.filter (fun t => t.sig == s) =
        batch.filter (fun t => t.sig == s) ∧
      (validate_global history batch).1.filter (fun e => e.sig == s) = []) := by
  rw [validate_global_eq history batch hne]
  dsimp only
  have hnd := nodup_uniqueSigs (batch.map (fun t => t.sig))
  have herr := bind_filter_single (uniqueSigs (batch.map (fun t => t.sig)))
    (dupErrFor history batch) (fun e => e.sig) s hnd (dupErrFor_sig history batch)
  have hsur := bind_filter_single (uniqueSigs (batch.map (fun t => t.sig)))
    (dupSurFor history batch) (fun t => t.sig) s hnd (dupSurFor_sig history batch)
  rw [herr, hsur]
  constructor
  · intro hhist hbucket
    have hmem : s ∈ uniqueSigs (batch.map (fun t => t.sig)) :=
      (sig_mem_iff_bucket batch s).mpr hbucket
    rw [if_pos hmem, if_pos hmem]
    rw [dupErrFor, if_pos hhist, dupSurFor]
    exact ⟨rfl, rfl⟩
  · intro hhist
    by_cases hmem : s ∈ uniqueSigs (batch.map (fun t => t.sig))
    · rw [if_pos hmem, if_pos hmem]
      rw [dupErrFor, if_neg (by simp [hhist]), dupSurFor, hhist]
      exact ⟨by simp, rfl⟩
    · rw [if_neg hmem, if_neg hmem]
      have hbucket : batch.filter (fun t => t.sig == s) = [] := by
        by_contra hc
        exact hmem ((sig_mem_iff_bucket batch s).mpr hc)
      rw [hbucket]
      exact ⟨rfl, rfl⟩

theorem claim_C5_duplicate_detector_witness :
    (validate_global [⟨3, 10, [2, 7]⟩]
        [⟨10, ⟨3, 10, [2, 7]⟩⟩, ⟨11, ⟨3, 10, [2, 7]⟩⟩,
          ⟨12, ⟨3, 20, [2, 8]⟩⟩]).2.filter (fun t => t.sig == ⟨3, 10, [2, 7]⟩) =
      (List.filter (fun t => t.sig == (⟨3, 10, [2, 7]⟩ : DupSig))
          ([⟨10, ⟨3, 10, [2, 7]⟩⟩, ⟨11, ⟨3, 10, [2, 7]⟩⟩,
            ⟨12, ⟨3, 20, [2, 8]⟩⟩] : List DupRow)).drop
        (min (dupcheck_buckets [⟨3, 10, [2, 7]⟩]
            (batchLo [⟨10, ⟨3, 10, [2, 7]⟩⟩, ⟨11, ⟨3, 10, [2, 7]⟩⟩, ⟨12, ⟨3, 20, [2, 8]⟩⟩])
            (batchHi [⟨10, ⟨3, 10, [2, 7]⟩⟩, ⟨11, ⟨3, 10, [2, 7]⟩⟩, ⟨12, ⟨3, 20, [2, 8]⟩⟩])
            ⟨3, 10, [2, 7]⟩)
          (List.filter (fun t => t.sig == (⟨3, 10, [2, 7]⟩ : DupSig))
            ([⟨10, ⟨3, 10, [2, 7]⟩⟩, ⟨11, ⟨3, 10, [2, 7]⟩⟩,
              ⟨12, ⟨3, 20, [2, 8]⟩⟩] : List DupRow)).length) :=
  ((claim_C5_duplicate_detector [⟨3, 10, [2, 7]⟩]
      [⟨10, ⟨3, 10, [2, 7]⟩⟩, ⟨11, ⟨3, 10, [2, 7]⟩⟩, ⟨12, ⟨3, 20, [2, 8]⟩⟩]
      ⟨3, 10, [2, 7]⟩ (by decide)).1 (by decide) (by decide)).2

/-! ### Date-window machinery for the second detector run -/

theorem foldl_min_le_init (l : List Nat) : ∀ a, l.foldl min a ≤ a := by
  induction l with
  | nil => intro a; simp
  | cons x l ih =>
    intro a
    calc l.foldl min (min a x) ≤ min a x := ih _
      _ ≤ a := min_le_left _ _

theorem foldl_min_le_mem (l : List Nat) : ∀ a x, x ∈ l → l.foldl min a ≤ x := by
  induction l with
  | nil => intro a x hx; simp at hx
  | cons y l ih =>
    intro a x hx
    rcases List.mem_cons.mp hx with rfl | hx'
    · calc l.foldl min (min a x) ≤ min a x := foldl_min_le_init _ _
        _ ≤ x := min_le_right _ _
    · exact ih _ x hx'

theorem foldl_min_cases (l : List Nat) : ∀ a, l.foldl min a = a ∨ l.foldl min a ∈ l := by
  induction l with
  | nil => intro a; left; rfl
  | cons y l ih =>
    intro a
    rcases ih (min a y) with h | h
    · rcases min_choice a y with hc | hc
      · left; rw [List.foldl_cons, h, hc]
      · right; rw [List.foldl_cons, h, hc]; exact List.mem_cons_self _ _
    · right; exact List.mem_cons_of_mem _ h

theorem foldl_max_ge_init (l : List Nat) : ∀ a, a ≤ l.foldl max a := by
  induction l with
  | nil => intro a; simp
  | cons x l ih =>
    intro a
    calc a ≤ max a x := le_max_left _ _
      _ ≤ l.foldl max (max a x) := ih _

theorem foldl_max_ge_mem (l : List Nat) : ∀ a x, x ∈ l → x ≤ l.foldl max a := by
  induction l with
  | nil => intro a x hx; simp at hx
  | cons y l ih =>
    intro a x hx
    rcases List.mem_cons.mp hx with rfl | hx'
    · calc x ≤ max a x := le_max_right _ _
        _ ≤ l.foldl max (max a x) := foldl_max_ge_init _ _
    · exact ih _ x hx'

theorem foldl_max_cases (l : List Nat) : ∀ a, l.foldl max a = a ∨ l.foldl max a ∈ l := by
  induction l with
  | nil => intro a; left; rfl
  | cons y l ih =>
    intro a
    rcases ih (max a y) with h | h
    · rcases max_choice a y with hc | hc
      · left; rw [List.foldl_cons, h, hc]
      · right; rw [List.foldl_cons, h, hc]; exact List.mem_cons_self _ _
    · right; exact List.mem_cons_of_mem _ h

theorem batchLo_le (batch : List DupRow) (t : DupRow) (ht : t ∈ batch) :
    batchLo batch ≤ t.sig.date := by
  rcases hmap : batch.map (fun t => t.sig.date) with _ | ⟨d, ds⟩
  · rcases batch with _ | ⟨u, us⟩
    · simp at ht
    · simp at hmap
  · rw [batchLo, hmap]
    have hd : t.sig.date ∈ batch.map (fun t => t.sig.date) :=
      List.mem_map.mpr ⟨t, ht, rfl⟩
    rw [hmap] at hd
    rcases List.mem_cons.mp hd with heq | hmem
    · rw [← heq]; exact foldl_min_le_init _ _
    · exact foldl_min_le_mem _ _ _ hmem

theorem batchHi_ge (batch : List DupRow) (t : DupRow) (ht : t ∈ batch) :
    t.sig.date ≤ batchHi batch := by
  rcases hmap : batch.map (fun t => t.sig.date) with _ | ⟨d, ds⟩
  · rcases batch with _ | ⟨u, us⟩
    · simp at ht
    · simp at hmap
  · rw [batchHi, hmap]
    have hd : t.sig.date ∈ batch.map (fun t => t.sig.date) :=
      List.mem_map.mpr ⟨t, ht, rfl⟩
    rw [hmap] at hd
    rcases List.mem_cons.mp hd with heq | hmem
    · rw [← heq]; exact foldl_max_ge_init _ _
    · exact foldl_max_ge_mem _ _ _ hmem

theorem batchLo_mem (batch : List DupRow) (hb : batch ≠ []) :
    ∃ t ∈ batch, batchLo batch = t.sig.date := by
  rcases hmap : batch.map (fun t => t.sig.date) with _ | ⟨d, ds⟩
  · rcases batch with _ | ⟨u, us⟩
    · exact absurd rfl hb
    · simp at hmap
  · rw [batchLo, hmap]
    have hmem : ds.foldl min d ∈ d :: ds := by
      rcases foldl_min_cases ds d with h | h
      · rw [h]; exact List.mem_cons_self _ _
      · exact List.mem_cons_of_mem _ h
    rw [← hmap] at hmem
    obtain ⟨t, ht, hd⟩ := List.mem_map.mp hmem
    exact ⟨t, ht, hd.symm⟩

theorem batchHi_mem (batch : List DupRow) (hb : batch ≠ []) :
    ∃ t ∈ batch, batchHi batch = t.sig.date := by
  rcases hmap : batch.map (fun t => t.sig.date) with _ | ⟨d, ds⟩
  · rcases batch with _ | ⟨u, us⟩
    · exact absurd rfl hb
    · simp at hmap
  · rw [batchHi, hmap]
    have hmem : ds.foldl max d ∈ d :: ds := by
      rcases foldl_max_cases ds d with h | h
      · rw [h]; exact List.mem_cons_self _ _
      · exact List.mem_cons_of_mem _ h
    rw [← hmap] at hmem
    obtain ⟨t, ht, hd⟩ := List.mem_map.mp hmem
    exact ⟨t, ht, hd.symm⟩

/-- A signature with no historical occurrence in a window has none in any
narrower window. -/
theorem dupcheck_buckets_zero_mono (history : List DupSig) (lo hi lo' hi' : Nat)
    (s : DupSig) (hlo : lo ≤ lo') (hhi : hi' ≤ hi)
    (h : dupcheck_buckets history lo hi s = 0) :
    dupcheck_buckets history lo' hi' s = 0 := by
  rw [dupcheck_buckets, List.count_eq_zero] at h ⊢
  intro hmem
  obtain ⟨hh, hrange⟩ := List.mem_filter.mp hmem
  simp only [Bool.and_eq_true, decide_eq_true_eq] at hrange
  exact h (List.mem_filter.mpr ⟨hh, by simp; omega⟩)

theorem bind_congr_dup {α β : Type} (l : List α) (f g : α → List β)
    (h : ∀ a ∈ l, f a = g a) : l.bind f = l.bind g := by
  induction l with
  | nil => rfl
  | cons a l ih =>
    have h1 : (a :: l).bind f = f a ++ l.bind f := rfl
    have h2 : (a :: l).bind g = g a ++ l.bind g := rfl
    rw [h1, h2, h a (List.mem_cons_self _ _),
      ih (fun x hx => h x (List.mem_cons_of_mem _ hx))]

theorem bind_eq_nil_dup {α β : Type} (l : List α) (f : α → List β)
    (h : ∀ a ∈ l, f a = []) : l.bind f = [] := by
  induction l with
  | nil => rfl
  | cons a l ih =>
    have h1 : (a :: l).bind f = f a ++ l.bind f := rfl
    rw [h1, h a (List.mem_cons_self _ _),
      ih (fun x hx => h x (List.mem_cons_of_mem _ hx)), List.append_nil]

/-- Multiplicity of a row in the flattened signature buckets of a
duplicate-free signature list. -/
theorem count_bind_buckets (l : List DupRow) (sigs : List DupSig)
    (hnd : sigs.Nodup) (t : DupRow) :
    ((sigs.bind (fun s' => l.filter (fun r => r.sig == s'))).count t) =
      if t.sig ∈ sigs then l.count t else 0 := by
  induction sigs with
  | nil => simp
  | cons a sigs ih =>
    obtain ⟨hna, hnd'⟩ := List.nodup_cons.mp hnd
    have hcons : (a :: sigs).bind (fun s' => l.filter (fun r => r.sig == s')) =
        l.filter (fun r => r.sig == a) ++
          sigs.bind (fun s' => l.filter (fun r => r.sig == s')) := rfl
    rw [hcons, List.count_append, ih hnd']
    by_cases hta : t.sig = a
    · have hcount : (l.filter (fun r => r.sig == a)).count t = l.count t := by
        rw [List.count_filter]
        simp [hta]
      rw [hcount, if_neg (hta ▸ hna), if_pos (by rw [hta]; exact List.mem_cons_self _ _)]
      omega
    · have hcount : (l.filter (fun r => r.sig == a)).count t = 0 := by
        rw [List.count_eq_zero]
        intro hmem
        exact hta (by simpa using (List.mem_filter.mp hmem).2)
      rw [hcount]
      by_cases hmem : t.sig ∈ sigs
      · rw [if_pos hmem, if_pos (List.mem_cons_of_mem _ hmem)]
        omega
      · rw [if_neg hmem, if_neg (by
          intro hc
          rcases List.mem_cons.mp hc with h | h
          · exact hta h
          · exact hmem h)]

/-- Flattening the signature buckets of a batch is a permutation of the
batch. -/
theorem bind_buckets_perm (l : List DupRow) :
    ((uniqueSigs (l.map (fun t => t.sig))).bind
        (fun s' => l.filter (fun r => r.sig == s'))).Perm l := by
  rw [List.perm_iff_count]
  intro t
  rw [count_bind_buckets l _ (nodup_uniqueSigs _) t]
  by_cases hmem : t.sig ∈ uniqueSigs (l.map (fun r => r.sig))
  · rw [if_pos hmem]
  · rw [if_neg hmem]
    have htl : t ∉ l := by
      intro htl
      exact hmem ((mem_uniqueSigs _ _).mpr (List.mem_map.mpr ⟨t, htl, rfl⟩))
    rw [List.count_eq_zero.mpr htl]

/-- Claim C6 (amended): the duplicate detector is idempotent *provided*
every signature either has no historical occurrence in the batch's date
window or its import count does not exceed its historical count.  Under
that proviso, re-running `validate_global` on the survivors (same
history) emits no errors and returns the same survivor set (a permutation
of the survivor list), so the cumulative error set and survivor set match
those of the single application.  Without the proviso idempotence fails
(see the counterexample): when `0 < occ_hist < occ_import`, the second
run drops `occ_hist` further rows and emits fresh errors. -/
theorem claim_C6_idempotence (history : List DupSig) (batch : List DupRow)
    (hyp : ∀ s, dupcheck_buckets history (batchLo batch) (batchHi batch) s = 0 ∨
      (batch.filter (fun t => t.sig == s)).length ≤
        dupcheck_buckets history (batchLo batch) (batchHi batch) s) :
    (validate_global history (validate_global history batch).2).1 = [] ∧
    (validate_global history (validate_global history batch).2).2.Perm
      (validate_global history batch).2 := by
  by_cases hb : batch = []
  · subst hb
    rw [validate_global]
    simp [validate_global]
  · by_cases hs1 : (validate_global history batch).2 = []
    · rw [hs1, validate_global]
      simp
  -- survivors of the first run have no historical occurrence in the
  -- first run's window
    · have hA : ∀ t ∈ (validate_global history batch).2,
          dupcheck_buckets history (batchLo batch) (batchHi batch) t.sig = 0 := by
        intro t ht
        rw [validate_global_eq history batch hb] at ht
        dsimp only at ht
        obtain ⟨s', hs'mem, hts⟩ := List.mem_bind.mp ht
        have hsig := dupSurFor_sig history batch s' t hts
        rcases hyp s' with h0 | hle
        · rw [hsig]; exact h0
        · rw [dupSurFor, min_eq_right hle, List.drop_length] at hts
          simp at hts
      have hsubset : ∀ t ∈ (validate_global history batch).2, t ∈ batch := by
        intro t ht
        rw [validate_global_eq history batch hb] at ht
        dsimp only at ht
        obtain ⟨s', hs'mem, hts⟩ := List.mem_bind.mp ht
        rw [dupSurFor] at hts
        exact (List.mem_filter.mp (List.mem_of_mem_drop hts)).1
      -- the second run's window is contained in the first run's
      have hlo : batchLo batch ≤ batchLo (validate_global history batch).2 := by
        obtain ⟨t, ht, heq⟩ := batchLo_mem (validate_global history batch).2 hs1
        rw [heq]
        exact batchLo_le batch t (hsubset t ht)
      have hhi : batchHi (validate_global history batch).2 ≤ batchHi batch := by
        obtain ⟨t, ht, heq⟩ := batchHi_mem (validate_global history batch).2 hs1
        rw [heq]
        exact batchHi_ge batch t (hsubset t ht)
      have hA2 : ∀ t ∈ (validate_global history batch).2,
          dupcheck_buckets history (batchLo (validate_global history batch).2)
            (batchHi (validate_global history batch).2) t.sig = 0 := by
        intro t ht
        exact dupcheck_buckets_zero_mono history _ _ _ _ _ hlo hhi (hA t ht)
      have hsig0 : ∀ s' ∈ uniqueSigs ((validate_global history batch).2.map
          (fun t => t.sig)),
          dupcheck_buckets history (batchLo (validate_global history batch).2)
            (batchHi (validate_global history batch).2) s' = 0 := by
        intro s' hs'
        obtain ⟨t, ht, hts⟩ := List.mem_map.mp ((mem_uniqueSigs _ _).mp hs')
        rw [← hts]
        exact hA2 t ht
      rw [validate_global_eq history (validate_global history batch).2 hs1]
      dsimp only
      constructor
      · apply bind_eq_nil_dup
        intro s' hs'
        rw [dupErrFor, if_neg (by simp [hsig0 s' hs'])]
      · have hdrop : ((uniqueSigs ((validate_global history batch).2.map
            (fun t => t.sig))).bind
              (dupSurFor history (validate_global history batch).2)) =
            ((uniqueSigs ((validate_global history batch).2.map
              (fun t => t.sig))).bind
              (fun s' => (validate_global history batch).2.filter
                (fun r => r.sig == s'))) := by
          apply bind_congr_dup
          intro s' hs'
          rw [dupSurFor, hsig0 s' hs']
          simp
        rw [hdrop]
        exact bind_buckets_perm (validate_global history batch).2

/-- Counterexample to claim C6 as stated: one historical entry with
signature `s₀` and a batch of two rows with that signature (same date).
The first application keeps the second row; the second application drops
it too (and emits a fresh error), so the survivor sets of one and two
applications differ. -/
theorem claim_C6_idempotence_counterexample :
    (⟨11, ⟨3, 10, [2, 7]⟩⟩ : DupRow) ∈
      (validate_global [⟨3, 10, [2, 7]⟩]
        [⟨10, ⟨3, 10, [2, 7]⟩⟩, ⟨11, ⟨3, 10, [2, 7]⟩⟩]).2 ∧
    (⟨11, ⟨3, 10, [2, 7]⟩⟩ : DupRow) ∉
      (validate_global [⟨3, 10, [2, 7]⟩]
        (validate_global [⟨3, 10, [2, 7]⟩]
          [⟨10, ⟨3, 10, [2, 7]⟩⟩, ⟨11, ⟨3, 10, [2, 7]⟩⟩]).2).2 ∧
    (validate_global [⟨3, 10, [2, 7]⟩]
        (validate_global [⟨3, 10, [2, 7]⟩]
          [⟨10, ⟨3, 10, [2, 7]⟩⟩, ⟨11, ⟨3, 10, [2, 7]⟩⟩]).2).1 ≠ [] := by
  decide

theorem claim_C6_idempotence_witness :
    (validate_global [⟨4, 10, [2, 7]⟩]
        (validate_global [⟨4, 10, [2, 7]⟩]
          [(⟨10, ⟨3, 10, [2, 7]⟩⟩ : DupRow), ⟨11, ⟨3, 20, [2, 8]⟩⟩]).2).1 = [] ∧
    (validate_global [⟨4, 10, [2, 7]⟩]
        (validate_global [⟨4, 10, [2, 7]⟩]
          [(⟨10, ⟨3, 10, [2, 7]⟩⟩ : DupRow), ⟨11, ⟨3, 20, [2, 8]⟩⟩]).2).2.Perm
      (validate_global [⟨4, 10, [2, 7]⟩]
        [(⟨10, ⟨3, 10, [2, 7]⟩⟩ : DupRow), ⟨11, ⟨3, 20, [2, 8]⟩⟩]).2 :=
  claim_C6_idempotence [⟨4, 10, [2, 7]⟩]
    [⟨10, ⟨3, 10, [2, 7]⟩⟩, ⟨11, ⟨3, 20, [2, 8]⟩⟩]
    (by
      intro s
      left
      simp [dupcheck_buckets, batchLo, batchHi])

/-! ### Double-book derived balances (`DoubleBookModel`, `BaseDebtRecord`)

`matched_balance` is an `Int` number of cents so that inconsistent
database states (a record whose splits exceed its total) remain
expressible; the Money returned by the Python property is identified with
its amount. -/

/-- A double-book record as seen by the balance properties
(models/accounting/base.py 160-203): the optional queryset annotations
(`matched_balance_fromdb` / `unmatched_balance_fromdb`), the primary key
(`none` for a record never saved), the stored total, and the amounts of
the splits reachable through `split_manager` (the database fallback). -/
structure DBRecord where
  pk : Option Nat
  total_amount : Int
  matched_balance_fromdb : Option Int
  unmatched_balance_fromdb : Option Int
  db_split_amounts : List Int
deriving DecidableEq, Repr

/-- Which branch of the `matched_balance` property fires. -/
inductive MatchedBalanceSource where
  | annotated
  | fresh
  | dbAggregate
deriving DecidableEq, Repr

/-- `DoubleBookModel.matched_balance` (models/accounting/base.py 160-186):
the annotation if present; `0.00` for a record with no primary key;
otherwise the database aggregation over the record's splits. -/
def matched_balance (r : DBRecord) : Int :=
  match r.matched_balance_fromdb with
  | some v => v
  | none =>
    match r.pk with
    | none => 0
    | some _ => r.db_split_amounts.sum

/-- The branch taken by `matched_balance` on a given record. -/
def matched_balance_source (r : DBRecord) : MatchedBalanceSource :=
  match r.matched_balance_fromdb with
  | some _ => .annotated
  | none =>
    match r.pk with
    | none => .fresh
    | some _ => .dbAggregate

/-- `DoubleBookModel.unmatched_balance` (models/accounting/base.py
188-196): the annotation if present, else `total_amount -
matched_balance`. -/
def unmatched_balance (r : DBRecord) : Int :=
  match r.unmatched_balance_fromdb with
  | some v => v
  | none => r.total_amount - matched_balance r

/-- `DoubleBookModel.fully_matched` (models/accounting/base.py 198-203):
`not self.unmatched_balance`, i.e. the Money truthiness test — true
exactly when the unmatched balance is zero. -/
def fully_matched (r : DBRecord) : Bool :=
  unmatched_balance r == 0

/-- `BaseDebtRecord.balance` (models/accounting/base.py 394-396). -/
def balance (r : DBRecord) : Int := unmatched_balance r

/-- `BaseDebtRecord.paid` (models/accounting/base.py 398-400). -/
def paid (r : DBRecord) : Bool := fully_matched r

/-- Counterexample to claim C7 as stated: a persisted debt annotated with
`matched_balance = 15.00` against `total_amount = 10.00` has
`balance = -5.00 ≤ 0` yet is *not* `paid`, because `fully_matched` tests
`balance == 0`, not `balance ≤ 0`. -/
theorem claim_C7_paid_counterexample :
    balance ⟨some 1, 1000, some 1500, none, []⟩ ≤ 0 ∧
    matched_balance ⟨some 1, 1000, some 1500, none, []⟩ ≥
      (⟨some 1, 1000, some 1500, none, []⟩ : DBRecord).total_amount ∧
    paid ⟨some 1, 1000, some 1500, none, []⟩ = false := by
  decide

/-- Claim C7 (amended): `paid` holds iff `balance = 0`; whenever the
balance is non-negative (the data-model invariant
`0 ≤ matched_balance ≤ total_amount`), this coincides with
`balance ≤ 0`, and a debt whose matched balance *equals* its total (with
consistent annotations) is paid.  The original "balance ≤ 0" direction
fails on over-matched records, where `balance < 0` but `paid` is false. -/
theorem claim_C7_paid_iff (r : DBRecord) :
    (paid r = true ↔ balance r = 0) ∧
    (0 ≤ balance r → (paid r = true ↔ balance r ≤ 0)) ∧
    (r.unmatched_balance_fromdb = none → matched_balance r = r.total_amount →
      paid r = true) := by
  refine ⟨?_, ?_, ?_⟩
  · rw [paid, fully_matched, balance]
    simp
  · intro h0
    rw [paid, fully_matched, balance] at *
    simp only [beq_iff_eq]
    omega
  · intro hann hmb
    simp [paid, fully_matched, unmatched_balance, hann, hmb]

theorem claim_C7_paid_iff_witness :
    0 ≤ balance ⟨some 1, 1000, some 1000, none, []⟩ ∧
    (paid ⟨some 1, 1000, some 1000, none, []⟩ = true ↔
      balance ⟨some 1, 1000, some 1000, none, []⟩ ≤ 0) :=
  ⟨by decide, (claim_C7_paid_iff ⟨some 1, 1000, some 1000, none, []⟩).2.1 (by decide)⟩

/-- Claim C10: a record with no queryset annotations and no primary key
has `matched_balance = 0.00` (the "fresh record" branch, never the
database-fallback aggregation), and hence `unmatched_balance =
total_amount`. -/
theorem claim_C10_fresh_record (r : DBRecord)
    (hm : r.matched_balance_fromdb = none)
    (hu : r.unmatched_balance_fromdb = none)
    (hpk : r.pk = none) :
    matched_balance r = 0 ∧
    unmatched_balance r = r.total_amount ∧
    matched_balance_source r = .fresh := by
  refine ⟨?_, ?_, ?_⟩
  · simp [matched_balance, hm, hpk]
  · simp [unmatched_balance, matched_balance, hu, hm, hpk]
  · simp [matched_balance_source, hm, hpk]

theorem claim_C10_fresh_record_witness :
    matched_balance ⟨none, 1234, none, none, [500, 300]⟩ = 0 ∧
    unmatched_balance ⟨none, 1234, none, none, [500, 300]⟩ = 1234 ∧
    matched_balance_source ⟨none, 1234, none, none, [500, 300]⟩ = .fresh :=
  claim_C10_fresh_record ⟨none, 1234, none, none, [500, 300]⟩ rfl rfl rfl

/-! ### Pricing-rule evaluator (`complex_pricing.py`) -/

/-- An `ActivityOption` tree node (complex_pricing.py 50-102): the root
carries an empty slug and no parent; every node records whether it is
bound and to which activity.  Structural equality matches the Python
`__eq__`, which recurses through the parent chain. -/
inductive ActivityOption where
  | root (bound : Bool) (act_pk : Option Nat)
  | node (slug : String) (parent : ActivityOption) (bound : Bool) (act_pk : Option Nat)
deriving DecidableEq, Repr

/-- `ActivityOption.__contains__` (complex_pricing.py 87-90), as
`opt_mem item y = (item in y)`: `y == item.parent or item.parent in y`.
A root option has no parent (`None`), so it is contained in nothing. -/
def opt_mem (item y : ActivityOption) : Bool :=
  match item with
  | .root _ _ => false
  | .node _ parent _ _ => parent == y || opt_mem parent y

/-- The `PricingData` namedtuple (complex_pricing.py 222-225); the price
is in cents. -/
structure PricingData where
  price : Int
  comment : String
  filter_slug : Option String
deriving DecidableEq, Repr

/-- A parsed pricing rule: `_matching_rules` (the list of
`(option_list, PricingData)` cases produced by `_parse_specification`,
complex_pricing.py 331-369) together with the rule fields that build the
no-match default (`no_match_default`, `description`,
`default_filter_slug`). -/
structure PricingRule where
  matching_rules : List (List ActivityOption × PricingData)
  no_match_default : Int
  description : String
  default_filter_slug : Option String
deriving DecidableEq, Repr

/-- `is_matched(criterium)` in `opts_match` (complex_pricing.py 382-383):
some held option lies strictly below the criterion. -/
def is_matched (opts : List ActivityOption) (criterium : ActivityOption) : Bool :=
  opts.any (fun o => opt_mem o criterium)

/-- A case matches iff *all* its criteria are satisfied
(complex_pricing.py 385-387). -/
def case_matches (opts : List ActivityOption)
    (c : List ActivityOption × PricingData) : Bool :=
  c.1.all (fun cr => is_matched opts cr)

/-- The `for criteria, pricing_data in self._matching_rules` loop of
`opts_match`: first matching case wins. -/
def opts_match_cases (opts : List ActivityOption) :
    List (List ActivityOption × PricingData) → Option PricingData
  | [] => none
  | c :: cs =>
    if case_matches opts c then some c.2 else opts_match_cases opts cs

/-- `PricingRule.opts_match` (complex_pricing.py 378-393). -/
def opts_match (rule : PricingRule) (opts : List ActivityOption) : PricingData :=
  match opts_match_cases opts rule.matching_rules with
  | some data => data
  | none => ⟨rule.no_match_default, rule.description, rule.default_filter_slug⟩

/-- Claim C8: evaluation returns the `PricingData` of the first case, in
specification order, all of whose criteria contain at least one held
option under the tree-ancestor containment (`opt_mem`); when no case
matches, it returns the rule's `no_match_default` price with the rule's
description and default filter slug. -/
theorem claim_C8_first_match (rule : PricingRule) (opts : List ActivityOption) :
    (∀ pre c post, rule.matching_rules = pre ++ c :: post →
      (∀ c' ∈ pre, ¬(∀ cr ∈ c'.1, ∃ o ∈ opts, opt_mem o cr = true)) →
      (∀ cr ∈ c.1, ∃ o ∈ opts, opt_mem o cr = true) →
      opts_match rule opts = c.2) ∧
    ((∀ c ∈ rule.matching_rules, ¬(∀ cr ∈ c.1, ∃ o ∈ opts, opt_mem o cr = true)) →
      opts_match rule opts =
        ⟨rule.no_match_default, rule.description, rule.default_filter_slug⟩) := by
  have hchar : ∀ c : List ActivityOption × PricingData,
      case_matches opts c = true ↔ ∀ cr ∈ c.1, ∃ o ∈ opts, opt_mem o cr = true := by
    intro c
    simp [case_matches, is_matched, List.all_eq_true, List.any_eq_true]
  constructor
  · intro pre c post hrules hpre hc
    rw [opts_match, hrules]
    have hfirst : ∀ pre', (∀ c' ∈ pre', ¬(∀ cr ∈ c'.1, ∃ o ∈ opts, opt_mem o cr = true)) →
        opts_match_cases opts (pre' ++ c :: post) = some c.2 := by
      intro pre'
      induction pre' with
      | nil =>
        intro _
        rw [List.nil_append, opts_match_cases, if_pos ((hchar c).mpr hc)]
      | cons c' pre' ih =>
        intro hpre'
        rw [List.cons_append, opts_match_cases, if_neg (by
          intro hmatch
          exact hpre' c' (List.mem_cons_self _ _) ((hchar c').mp hmatch))]
        exact ih (fun x hx => hpre' x (List.mem_cons_of_mem _ hx))
    rw [hfirst pre hpre]
  · intro hall
    rw [opts_match]
    have hnone : ∀ cs, (∀ c ∈ cs, ¬(∀ cr ∈ c.1, ∃ o ∈ opts, opt_mem o cr = true)) →
        opts_match_cases opts cs = none := by
      intro cs
      induction cs with
      | nil => intro _; rfl
      | cons c' cs ih =>
        intro hcs
        rw [opts_match_cases, if_neg (by
          intro hmatch
          exact hcs c' (List.mem_cons_self _ _) ((hchar c').mp hmatch))]
        exact ih (fun x hx => hcs x (List.mem_cons_of_mem _ hx))
    rw [hnone rule.matching_rules hall]

theorem claim_C8_first_match_witness :
    opts_match
      ⟨[([ActivityOption.node "foo" (.root false none) false none], ⟨1000, "match", none⟩)],
        500, "default", some "slug"⟩
      [ActivityOption.node "bar" (.node "foo" (.root false none) false none) false none] =
      ⟨1000, "match", none⟩ :=
  (claim_C8_first_match
      ⟨[([ActivityOption.node "foo" (.root false none) false none], ⟨1000, "match", none⟩)],
        500, "default", some "slug"⟩
      [ActivityOption.node "bar" (.node "foo" (.root false none) false none) false none]).1
    [] ([ActivityOption.node "foo" (.root false none) false none], ⟨1000, "match", none⟩) []
    rfl (by simp)
    (by
      intro cr hcr
      refine ⟨ActivityOption.node "bar" (.node "foo" (.root false none) false none) false none,
        by simp, ?_⟩
      simp only [List.mem_singleton] at hcr
      rw [hcr]
      decide)

/-! ### Transfer preparator (`DebtTransferPaymentPreparator`)

The `lukweb.payments` helpers (`parse_ogm`, `ogm_from_prefix`,
`parse_internal_debt_ogm`, the nature constants) are not under `src/`;
they are modelled from the spec (§3 "OGM", §4.1 "OGM codec").  An OGM is
carried as its canonical twelve-digit value, a `Nat < 10¹²`; equality of
canonical values coincides with equality of canonical strings. -/

/-- Modelled from the spec: the OGM check digits — "the trailing two
digits are `modulus 97` of the leading ten, with the special case that a
remainder of 0 is rendered as 97" (spec §3; `lukweb/payments.py` is not
in src/). -/
def ogm_checksum (pfx : Nat) : Nat :=
  if pfx % 97 = 0 then 97 else pfx % 97

/-- Modelled from the spec: `parse_ogm` — accept only twelve decimal
digits, recompute the modulus and fail on mismatch, returning the
ten-digit leading number and the modulus (spec §4.1;
`lukweb/payments.py` is not in src/). -/
def parse_ogm (ogm : Nat) : Option (Nat × Nat) :=
  if ogm < 10 ^ 12 && ogm_checksum (ogm / 100) == ogm % 100 then
    some (ogm / 100, ogm % 100)
  else none

/-- Modelled from the spec: the prefix tag — "integer division of the
first ten digits by 10⁹" (spec §4.1). -/
def first_digit (pfx : Nat) : Nat := pfx / 10 ^ 9

/-- Modelled from the spec: `parse_internal_debt_ogm` extracts the
nine-digit application-assigned record identifier (spec §3;
`lukweb/payments.py` is not in src/). -/
def parse_internal_debt_ogm (ogm : Nat) : Nat := (ogm / 100) % 10 ^ 9

/-- Modelled from the spec: the `PAYMENT_NATURE_TRANSFER` constant (its
numeric value is not in src/; only its identity matters here). -/
def PAYMENT_NATURE_TRANSFER : Nat := 2

/-- A party as the preparator sees it: primary key and canonical OGM
(`payment_tracking_no`). -/
structure AccountMember where
  pk : Nat
  payment_tracking_no : Nat
deriving DecidableEq, Repr

/-- A parsed bank-transfer row (`BankCSVParser.TransactionInfo`,
transfers.py 29-48): line number, amount in cents (negative amounts are
*not* rejected at parse time), timestamp, and the canonical OGM. -/
structure TransferTransaction where
  line_no : Nat
  amount : Int
  timestamp : Int
  ogm : Nat
deriving DecidableEq, Repr

/-- The only error `model_kwargs_for_transaction` can record on this
path: `'Payment amount %(amount)s is negative.'` (bulk_utils.py 219-227). -/
inductive TransferError where
  | negative_amount (line_no : Nat) (amount : Int)
deriving DecidableEq, Repr

/-- The model kwargs assembled for a surviving row
(bulk_utils.py 229-232 plus transfers.py 151-153). -/
structure TransferKwargs where
  total_amount : Int
  timestamp : Int
  member_pk : Nat
  nature : Nat
deriving DecidableEq, Repr

/-- Outcome of `model_kwargs_for_transaction`: either a normal return
(kwargs or `None`, with the errors recorded during the call), or the
unhandled `KeyError` raised by `self._members_by_id[pk]` when the
nine-digit id resolves to no loaded member (transfers.py 144). -/
inductive MKOutcome where
  | ok (kwargs : Option TransferKwargs) (errors : List TransferError)
  | key_error (pk : Nat)
deriving DecidableEq, Repr

/-- `TransferRecordPreparator.ogm_applies` (transfers.py 88-93): the OGM
parses and its first digit is the preparator's prefix digit. -/
def ogm_applies (pd : Nat) (ogm : Nat) : Bool :=
  match parse_ogm ogm with
  | some (pfx, _) => pd == first_digit pfx
  | none => false

/-- `self._members_by_id[pk]`, as an optional lookup over the loaded
members (transfers.py 183-185). -/
def lookup_member (ms : List AccountMember) (pk : Nat) : Option AccountMember :=
  ms.find? (fun m => m.pk == pk)

/-- `DebtTransferPaymentPreparator.model_kwargs_for_transaction`
(transfers.py 139-153) with its superclass chain inlined in MRO order:
`TransferRecordPreparator` drops rows whose OGM does not apply
(transfers.py 95-98); `LedgerEntryPreparator` records an error and drops
rows with negative amounts (bulk_utils.py 219-232); finally the
nine-digit id is resolved and the canonical OGM of the resolved member is
compared with the incoming one — on mismatch the row is dropped with no
error. -/
def model_kwargs_for_transaction (pd : Nat) (members : List AccountMember)
    (t : TransferTransaction) : MKOutcome :=
  if ogm_applies pd t.ogm then
    if t.amount < 0 then .ok none [.negative_amount t.line_no t.amount]
    else
      match lookup_member members (parse_internal_debt_ogm t.ogm) with
      | none => .key_error (parse_internal_debt_ogm t.ogm)
      | some m =>
        if t.ogm ≠ m.payment_tracking_no then .ok none []
        else .ok (some ⟨t.amount, t.timestamp, m.pk, PAYMENT_NATURE_TRANSFER⟩) []
  else .ok none []

/-- Counterexample to claim C9 as stated: a row whose OGM parses, applies
and resolves (record id 5 is loaded) and whose canonical OGM mismatches,
but whose amount is negative: the row is dropped *with* a recorded error
(the negative-amount error), not silently. -/
theorem claim_C9_ogm_mismatch_counterexample :
    ogm_applies 2 200000000573 = true ∧
    lookup_member [⟨5, 0⟩] (parse_internal_debt_ogm 200000000573) =
      some ⟨5, 0⟩ ∧
    (200000000573 : Nat) ≠
      (AccountMember.payment_tracking_no ⟨5, 0⟩ : Nat) ∧
    model_kwargs_for_transaction 2 [⟨5, 0⟩] ⟨3, -100, 0, 200000000573⟩ =
      .ok none [.negative_amount 3 (-100)] ∧
    model_kwargs_for_transaction 2 [⟨5, 0⟩] ⟨3, -100, 0, 200000000573⟩ ≠
      .ok none [] := by
  decide

/-- Claim C9 (amended): for every transaction row with a *non-negative
amount* (so the row reaches the verification step) whose nine-digit
record id resolves to a loaded party, if the party's full canonical OGM
differs from the incoming OGM then the row is dropped
(`model_kwargs_for_transaction` returns `None`) and no error is recorded
for that line. -/
theorem claim_C9_ogm_mismatch (pd : Nat) (members : List AccountMember)
    (t : TransferTransaction) (m : AccountMember)
    (hamt : 0 ≤ t.amount)
    (hres : lookup_member members (parse_internal_debt_ogm t.ogm) = some m)
    (hmm : t.ogm ≠ m.payment_tracking_no) :
    model_kwargs_for_transaction pd members t = .ok none [] := by
  rw [model_kwargs_for_transaction]
  by_cases happ : ogm_applies pd t.ogm
  · rw [if_pos happ, if_neg (by omega), hres]
    simp only []
    rw [if_pos hmm]
  · rw [if_neg happ]

theorem claim_C9_ogm_mismatch_witness :
    model_kwargs_for_transaction 2 [⟨5, 0⟩] ⟨3, 100, 0, 200000000573⟩ =
      .ok none [] :=
  claim_C9_ogm_mismatch 2 [⟨5, 0⟩] ⟨3, 100, 0, 200000000573⟩ ⟨5, 0⟩
    (by decide) (by decide) (by decide)
